import Mathlib

/-!
# Verification of the f5-telemetry-streaming collection core

Shallow embedding of the declarative collection/transformation engine of the
repository (`src/nodejs/systemStats.js` — the `SystemStats` evaluator) and of
the per-sink blacklist filter (`DataFilter`), together with theorems settling
the frozen claims about them.

JavaScript objects are modelled as insertion-ordered association lists
(`JObj`), which is exactly the observable behaviour of plain string-keyed JS
objects: `Object.keys` enumerates keys in insertion order, assignment to an
existing key updates the value in place keeping its position, assignment to a
fresh key appends it, and `delete` removes it.  JS `undefined` is an explicit
value (`JVal.undef`) because assigning `undefined` to a key still creates the
key.  Fallible code is modelled with `Except String`, the error being the
thrown `Error`'s message.  Promise-returning code whose only relevant effect
is its settled value is modelled by explicit state passing; the one claim
about scheduling order (`_computeContextData`) gets a dedicated tick-based
model of the cooperative scheduler.
-/

set_option autoImplicit false

/-- JavaScript values, as far as the claims need them: `undefined`, booleans,
numbers, strings, plain objects (insertion-ordered key/value lists) and
arrays. -/
inductive JVal where
  | undef
  | bool (b : Bool)
  | num (n : Int)
  | str (s : String)
  | obj (fields : List (String × JVal))
  | arr (items : List JVal)

/-- A plain JS object: insertion-ordered association list of string keys. -/
abbrev JObj := List (String × JVal)

/-- Property read `o[k]`: the value at the first matching key, `none` when the
key is absent (JS yields `undefined` for an absent key; `objGetD` below adds
that defaulting where the source reads possibly-absent keys). -/
def objGet : JObj → String → Option JVal
  | [], _ => none
  | p :: rest, k => if p.1 = k then some p.2 else objGet rest k

/-- Property read defaulted to `undefined`, i.e. the exact JS `o[k]`. -/
def objGetD (o : JObj) (k : String) : JVal :=
  (objGet o k).getD JVal.undef

/-- Property write `o[k] = v`: updates the first matching key in place
(keeping its position, as JS does), appends the key when absent. -/
def objSet : JObj → String → JVal → JObj
  | [], k, v => [(k, v)]
  | p :: rest, k, v =>
    if p.1 = k then (p.1, v) :: rest else p :: objSet rest k v

/-- Property removal `delete o[k]`. -/
def objDel : JObj → String → JObj
  | [], _ => []
  | p :: rest, k => if p.1 = k then objDel rest k else p :: objDel rest k

/-- `Object.assign(target, src)`: fold the source's entries into the target
with JS assignment semantics. -/
def objAssign (target src : JObj) : JObj :=
  src.foldl (fun acc p => objSet acc p.1 p.2) target

/-- JS truthiness of the values `JVal` models (objects and arrays are always
truthy; `undefined`, `false`, `0` and `""` are falsy). -/
def JVal.truthy : JVal → Bool
  | .undef => false
  | .bool b => b
  | .num n => n != 0
  | .str s => s ≠ ""
  | .obj _ => true
  | .arr _ => true

/-- Truthiness of a possibly-absent value (absent reads are `undefined`). -/
def optTruthy : Option JVal → Bool
  | none => false
  | some v => v.truthy

/-- `typeof v === 'object'` for the values `JVal` models (JS arrays are
`'object'` too). -/
def JVal.typeofObject : JVal → Bool
  | .obj _ => true
  | .arr _ => true
  | _ => false

/-- Whether `s` is an initial segment of `l` (character lists). -/
def segLeads : List Char → List Char → Bool
  | [], _ => true
  | _ :: _, [] => false
  | a :: as, b :: bs => a == b && segLeads as bs

/-- Whether `s` occurs contiguously anywhere inside `l` (character lists). -/
def segInside (s : List Char) : List Char → Bool
  | [] => segLeads s []
  | c :: rest => segLeads s (c :: rest) || segInside s rest

/-- Whether string `sub` occurs inside `msg` (used to state that an error
message names, or fails to name, a property). -/
def mentions (msg sub : String) : Bool :=
  segInside sub.data msg.data

-- ## Basic facts about the object operations

theorem objGet_objSet_self (o : JObj) (k : String) (v : JVal) :
    objGet (objSet o k v) k = some v := by
  induction o with
  | nil => simp [objSet, objGet]
  | cons p rest ih =>
    by_cases h : p.1 = k
    · simp [objSet, objGet, h]
    · simpa [objSet, objGet, h] using ih

theorem objGet_objSet_ne (o : JObj) (k k' : String) (v : JVal) (h : k ≠ k') :
    objGet (objSet o k v) k' = objGet o k' := by
  induction o with
  | nil =>
    have h' : ¬ (k = k') := h
    simp [objSet, objGet, h']
  | cons p rest ih =>
    by_cases hp : p.1 = k
    · have hp' : ¬ p.1 = k' := by rw [hp]; exact h
      simp [objSet, objGet, hp, hp', h]
    · simp [objSet, objGet, hp, ih]

theorem objGet_objDel_self (o : JObj) (k : String) :
    objGet (objDel o k) k = none := by
  induction o with
  | nil => rfl
  | cons p rest ih =>
    by_cases hp : p.1 = k
    · simp [objDel, hp, ih]
    · simp [objDel, objGet, hp, ih]

theorem objGet_objDel_ne (o : JObj) (k k' : String) (h : k' ≠ k) :
    objGet (objDel o k) k' = objGet o k' := by
  induction o with
  | nil => rfl
  | cons p rest ih =>
    by_cases hp : p.1 = k
    · have hp' : ¬ p.1 = k' := by rw [hp]; exact fun hh => h hh.symm
      have h2 : ¬ (k = k') := fun hh => h hh.symm
      simp [objDel, objGet, hp, hp', h2, ih]
    · simp [objDel, objGet, hp, ih]

theorem objDel_of_not_mem (o : JObj) (k : String) (h : k ∉ o.map Prod.fst) :
    objDel o k = o := by
  induction o with
  | nil => rfl
  | cons p rest ih =>
    simp only [List.map_cons, List.mem_cons, not_or] at h
    have h1 : ¬ p.1 = k := fun hh => h.1 hh.symm
    simp only [objDel, if_neg h1]
    rw [ih h.2]

theorem objGet_eq_none_of_not_mem (o : JObj) (k : String)
    (h : k ∉ o.map Prod.fst) : objGet o k = none := by
  induction o with
  | nil => rfl
  | cons p rest ih =>
    simp only [List.map_cons, List.mem_cons, not_or] at h
    have h1 : ¬ p.1 = k := fun hh => h.1 hh.symm
    simp only [objGet, if_neg h1]
    exact ih h.2

theorem mem_of_objGet_some (o : JObj) (k : String) (v : JVal)
    (h : objGet o k = some v) : k ∈ o.map Prod.fst := by
  induction o with
  | nil => simp [objGet] at h
  | cons p rest ih =>
    by_cases hp : p.1 = k
    · simp [hp.symm]
    · simp only [objGet, if_neg hp] at h
      simpa using Or.inr (ih h)

theorem objSet_map_fst_of_mem (o : JObj) (k : String) (v : JVal)
    (h : k ∈ o.map Prod.fst) :
    (objSet o k v).map Prod.fst = o.map Prod.fst := by
  induction o with
  | nil => simp at h
  | cons p rest ih =>
    by_cases hp : p.1 = k
    · simp [objSet, hp]
    · have h' : k ∈ rest.map Prod.fst := by
        simp only [List.map_cons, List.mem_cons] at h
        rcases h with h | h
        · exact absurd h.symm hp
        · exact h
      simp [objSet, hp, ih h']

theorem objDel_map_fst (o : JObj) (k : String) :
    (objDel o k).map Prod.fst = (o.map Prod.fst).filter (fun x => x ≠ k) := by
  induction o with
  | nil => rfl
  | cons p rest ih =>
    by_cases hp : p.1 = k
    · simp [objDel, List.filter_cons, hp, ih]
    · simp [objDel, List.filter_cons, hp, ih]

/-! ## Sink Data Filter (`DataFilter`, src/unnamed/part_001)

`dataUtil.js` and `util.js` are not among the provided sources; the two pieces
of them this component uses — the deep match collection of
`dataUtil.getDeepMatches` and `util.deepCopy` — are modelled from the spec
below. -/

/-- The inner `config` object of a consumer configuration; only `format` is
ever inspected. -/
structure InnerConfig where
  format : String

/-- Consumer (sink) configuration `{ type, config }`; only `type` and
`config.format` are inspected. -/
structure ConsumerConfig where
  type : String
  config : InnerConfig

/-- A data context `{ data, type }` handed to `DataFilter.apply`. -/
structure DataCtx where
  data : JObj
  type : String

/-- The `DataFilter` instance state: the (deep-copied) consumer config and the
blacklist computed at construction. -/
structure DataFilter where
  consumerConfig : ConsumerConfig
  blacklist : JObj

/-- Modelled from the spec: `util.deepCopy` (util.js is not in the provided
sources) returns a structurally equal fresh copy; on pure values the copy is
the value itself. -/
def deepCopyCtx (d : DataCtx) : DataCtx := d

/-- `DataFilter.prototype._applyGlobalFilters`: every sink except the
Splunk/legacy combination blacklists the key `tmstats`. -/
def applyGlobalFilters (df : DataFilter) : DataFilter :=
  if df.consumerConfig.type ≠ "Splunk" ∨ df.consumerConfig.config.format ≠ "legacy" then
    { df with blacklist := objAssign df.blacklist [("tmstats", JVal.bool true)] }
  else df

/-- The `DataFilter` constructor: deep-copies the consumer config, starts from
an empty blacklist and applies the global filters. -/
def mkDataFilter (consumerConfig : ConsumerConfig) : DataFilter :=
  applyGlobalFilters { consumerConfig := consumerConfig, blacklist := [] }

/-- Whether a value is JS `undefined` (the hole `delete` leaves in an
array, removed by `_applyBlacklist`'s re-index pass). -/
def JVal.isUndef : JVal → Bool
  | .undef => true
  | _ => false

/-- Whether a sequence whose elements sit at (string) index keys `i`,
`i + 1`, … contains a key the blacklist names — i.e. whether the sequence is
the container of some collected match, and therefore gets re-indexed by
`_applyBlacklist`'s second pass. -/
def arrHasMatch (blacklist : JObj) : Nat → List JVal → Bool
  | _, [] => false
  | i, _ :: rest =>
    (objGet blacklist (Nat.repr i)).isSome || arrHasMatch blacklist (i + 1) rest

mutual
/-- The deep blacklist pass of `DataFilter.prototype._applyBlacklist`
(src/unnamed/part_001 lines 60–77), with the scan of
`dataUtil.getDeepMatches` modelled from the spec (dataUtil.js is not in the
provided sources): the source first collects every `(container, key)`
match — "recursively scans nested mappings and sequences at every depth for
keys matching the blacklist" — then deletes every matched key from its
container (on a sequence, `delete` leaves an `undefined` hole and
deliberately avoids re-indexing), and finally re-indexes every matched
sequence by scanning from the end and removing its `undefined` slots.
Matches are collected before any mutation, each deletion is local to its own
container, and containers of a pure value tree are unaliased, so the
observable result is this single recursive pass: drop the keys the blacklist
names from every mapping (`applyBlacklistFields`), drop the index-keys it
names from every sequence — a sequence with a match also dropping its
`undefined` slots, exactly what its re-index pass removes
(`applyBlacklistArr`) — and recurse into the surviving values. -/
def applyBlacklistVal (blacklist : JObj) : JVal → JVal
  | .obj fields => .obj (applyBlacklistFields blacklist fields)
  | .arr items =>
    .arr (applyBlacklistArr blacklist (arrHasMatch blacklist 0 items) 0 items)
  | v => v

/-- The mapping case of the deep blacklist pass: delete the keys the
blacklist names, recurse into the surviving values. -/
def applyBlacklistFields (blacklist : JObj) :
    List (String × JVal) → List (String × JVal)
  | [] => []
  | p :: rest =>
    if (objGet blacklist p.1).isSome then applyBlacklistFields blacklist rest
    else (p.1, applyBlacklistVal blacklist p.2) :: applyBlacklistFields blacklist rest

/-- The sequence case of the deep blacklist pass, on elements at index keys
`i`, `i + 1`, …: delete the index-keys the blacklist names; when the
sequence contained a match (`hasMatch`), the re-index pass also removes its
`undefined` slots; recurse into the surviving elements. -/
def applyBlacklistArr (blacklist : JObj) (hasMatch : Bool) :
    Nat → List JVal → List JVal
  | _, [] => []
  | i, v :: rest =>
    if (objGet blacklist (Nat.repr i)).isSome then
      applyBlacklistArr blacklist hasMatch (i + 1) rest
    else if hasMatch && v.isUndef then
      applyBlacklistArr blacklist hasMatch (i + 1) rest
    else applyBlacklistVal blacklist v :: applyBlacklistArr blacklist hasMatch (i + 1) rest
end

/-- `_applyBlacklist` on a data context's top-level mapping. -/
def applyBlacklist (blacklist : JObj) (data : JObj) : JObj :=
  applyBlacklistFields blacklist data

/-- `DataFilter.prototype.apply`: deep-copy the incoming data context, apply
the blacklist to the copy's `data`, return the copy. -/
def DataFilter.apply (df : DataFilter) (dataCtx : DataCtx) : DataCtx :=
  let dataCtxCopy := deepCopyCtx dataCtx
  { dataCtxCopy with data := applyBlacklist df.blacklist dataCtxCopy.data }

/-- Mutation model of one `apply` call: JS state is passed explicitly, so a
call site is a function of the filter and the caller's object returning the
call's result together with the filter and the caller's object as they stand
after the call.  In the source, `_applyBlacklist` is invoked on
`dataCtxCopy.data` (the deep copy) — never on `dataCtx` — and the blacklist
is only read during match collection, never written, which is what the
returned post-state records. -/
def applyCall (df : DataFilter) (dataCtx : DataCtx) : DataCtx × DataFilter × DataCtx :=
  (DataFilter.apply df dataCtx, df, dataCtx)

theorem arrHasMatch_nil : ∀ (i : Nat) (items : List JVal),
    arrHasMatch [] i items = false := by
  intro i items
  induction items generalizing i with
  | nil => rfl
  | cons v rest ih => simp [arrHasMatch, objGet, ih]

theorem applyBlacklistVal_nil (v : JVal) : applyBlacklistVal [] v = v := by
  refine applyBlacklistVal.induct []
    (fun v => applyBlacklistVal [] v = v)
    (fun hm i items => hm = false → applyBlacklistArr [] hm i items = items)
    (fun l => applyBlacklistFields [] l = l)
    ?_ ?_ ?_ ?_ ?_ ?_ ?_ ?_ ?_ ?_ v
  · intro fields ih
    simp [applyBlacklistVal, ih]
  · intro items ih
    simp [applyBlacklistVal, ih (arrHasMatch_nil 0 items)]
  · intro v h1 h2
    cases v with
    | obj fields => exact absurd rfl (h1 fields)
    | arr items => exact absurd rfl (h2 items)
    | undef => rfl
    | bool b => rfl
    | num n => rfl
    | str s => rfl
  · rfl
  · intro p rest hp ih
    simp [objGet] at hp
  · intro p rest hp ihv ihl
    simp [applyBlacklistFields, objGet, ihv, ihl]
  · intro hm i hmf
    rfl
  · intro hm i head rest hp ih
    simp [objGet] at hp
  · intro hm i head rest hp hu ih hmf
    rw [hmf] at hu
    simp at hu
  · intro hm i head rest hp hu ihh ih hmf
    subst hmf
    simp [applyBlacklistArr, objGet, ihh, ih rfl]

theorem applyBlacklistFields_nil (l : List (String × JVal)) :
    applyBlacklistFields [] l = l := by
  induction l with
  | nil => rfl
  | cons p rest ih =>
    simp [applyBlacklistFields, objGet, applyBlacklistVal_nil, ih]

theorem objGet_applyBlacklistFields_matched (bl : JObj) (k : String)
    (hk : (objGet bl k).isSome = true) :
    ∀ l : List (String × JVal), objGet (applyBlacklistFields bl l) k = none := by
  intro l
  induction l with
  | nil => rfl
  | cons p rest ih =>
    by_cases hp : (objGet bl p.1).isSome = true
    · simp only [applyBlacklistFields, if_pos hp]
      exact ih
    · have hpk : ¬ p.1 = k := by
        intro hh
        rw [hh] at hp
        exact hp hk
      simp only [applyBlacklistFields, if_neg hp, objGet, if_neg hpk]
      exact ih

/-- **C6**: the `DataFilter` built from a sink configuration blacklists the
key `tmstats` — and `apply`'s deep blacklist pass then removes the top-level
key `tmstats` from the data — exactly when the configuration is not type
`'Splunk'` with `config.format` `'legacy'`; for that one combination the
blacklist is empty and `tmstats` is kept (the data comes back unchanged). -/
theorem dataFilter_blacklists_tmstats_iff_not_splunk_legacy
    (c : ConsumerConfig) (ty : String) (d : JObj) :
    ((mkDataFilter c).blacklist =
      if c.type = "Splunk" ∧ c.config.format = "legacy" then []
      else [("tmstats", JVal.bool true)]) ∧
    ((mkDataFilter c).apply { data := d, type := ty }).data =
      (if c.type = "Splunk" ∧ c.config.format = "legacy" then d
       else applyBlacklistFields [("tmstats", JVal.bool true)] d) ∧
    objGet (applyBlacklistFields [("tmstats", JVal.bool true)] d) "tmstats" =
      none := by
  have hbl : (mkDataFilter c).blacklist =
      if c.type = "Splunk" ∧ c.config.format = "legacy" then []
      else [("tmstats", JVal.bool true)] := by
    unfold mkDataFilter applyGlobalFilters
    by_cases hc : c.type = "Splunk" ∧ c.config.format = "legacy"
    · have h1 : ¬ (c.type ≠ "Splunk" ∨ c.config.format ≠ "legacy") := by
        push_neg
        exact hc
      simp [h1, hc, hc.1]
    · have h1 : c.type ≠ "Splunk" ∨ c.config.format ≠ "legacy" := by
        by_contra hno
        push_neg at hno
        exact hc ⟨hno.1, hno.2⟩
      simp [h1, hc, objAssign, objSet]
  refine ⟨hbl, ?_,
    objGet_applyBlacklistFields_matched [("tmstats", JVal.bool true)]
      "tmstats" rfl d⟩
  show applyBlacklist (mkDataFilter c).blacklist d = _
  rw [hbl]
  by_cases hc : c.type = "Splunk" ∧ c.config.format = "legacy"
  · simp only [if_pos hc]
    exact applyBlacklistFields_nil d
  · simp only [if_neg hc]
    rfl

/-- **C7**: one `apply` call, with the JS mutation made explicit as state
passing, returns a filtered deep copy and leaves both the caller's data
context and the filter (in particular its blacklist) exactly as they were; a
repeated call on the post-state input therefore returns the same result. -/
theorem dataFilter_apply_is_pure (df : DataFilter) (dataCtx : DataCtx) :
    (applyCall df dataCtx).2.1 = df ∧
    (applyCall df dataCtx).2.2 = dataCtx ∧
    (applyCall df dataCtx).1 =
      { data := applyBlacklist df.blacklist dataCtx.data, type := dataCtx.type } ∧
    (applyCall ((applyCall df dataCtx).2.1) ((applyCall df dataCtx).2.2)).1 =
      (applyCall df dataCtx).1 :=
  ⟨rfl, rfl, rfl, rfl⟩

/-! ## Conditional evaluation (`SystemStats`, src/nodejs/systemStats.js)

The evaluation context (`this.contextData`) is read by the two registered
predicates.  `util.compareVersionStrings` lives in util.js, which is not among
the provided sources and whose behaviour no claim depends on; it is abstracted
as an explicit function parameter `cmp` standing for
`(dv, v) => util.compareVersionStrings(dv, '>=', v)`. -/

/-- One module's provisioning record (`provisioning[module]`), with its
optional `level` field. -/
structure ProvisionInfo where
  level : Option String

/-- The resolved evaluation context, as the registered predicates read it:
`deviceVersion` and `provisioning` may each be absent. -/
structure ContextData where
  deviceVersion : Option String := none
  provisioning : Option (List (String × ProvisionInfo)) := none

/-- First association for a key in a plain association list. -/
def lookupA {α : Type} : List (String × α) → String → Option α
  | [], _ => none
  | p :: rest, k => if p.1 = k then some p.2 else lookupA rest k

/-- `deviceVersionGreaterOrEqual(contextData, versionToCompare)`: throws when
the context has no `deviceVersion`, otherwise compares with
`util.compareVersionStrings(deviceVersion, '>=', versionToCompare)`
(abstracted as `cmp`). -/
def deviceVersionGreaterOrEqual (cmp : String → String → Bool)
    (contextData : ContextData) (versionToCompare : String) :
    Except String Bool :=
  match contextData.deviceVersion with
  | none => .error "deviceVersionGreaterOrEqual: context has no property 'deviceVersion'"
  | some deviceVersion => .ok (cmp deviceVersion versionToCompare)

/-- `isModuleProvisioned(contextData, moduleToCompare)`: throws when the
context has no `provisioning`, otherwise evaluates
`((provisioning[moduleToCompare] || {}).level || 'none') !== 'none'`
(a present but falsy — empty — level string also falls back to `'none'`). -/
def isModuleProvisioned (contextData : ContextData) (moduleToCompare : String) :
    Except String Bool :=
  match contextData.provisioning with
  | none => .error "isModuleProvisioned: context has no property 'provisioning'"
  | some provisioning =>
    let lvl : String :=
      match lookupA provisioning moduleToCompare with
      | some info =>
        match info.level with
        | some l => if l = "" then "none" else l
        | none => "none"
      | none => "none"
    .ok (decide (lvl ≠ "none"))

/-- The closed predicate registry `CONDITIONAL_FUNCS`. -/
def CONDITIONAL_FUNCS (cmp : String → String → Bool) (key : String) :
    Option (ContextData → String → Except String Bool) :=
  if key = "deviceVersionGreaterOrEqual" then some (deviceVersionGreaterOrEqual cmp)
  else if key = "isModuleProvisioned" then some isModuleProvisioned
  else none

/-- A conditional block: the object's keys are conditional operators, the
values their (string) arguments, enumerated in insertion order as
`Object.keys` does. -/
abbrev CondBlock := List (String × String)

/-- The loop body of `_resolveConditional`'s `forEach`, carrying the running
`ret`.  For each key: look the operator up in `CONDITIONAL_FUNCS`, throw
`Unknown property in conditional block <key>` when it is not registered
(this check runs whether or not `ret` is already false), then evaluate
`ret = ret && func(contextData, arg)` — `&&` short-circuits, so the predicate
is not invoked (and cannot throw) once `ret` is false. -/
def resolveConditionalAux (cmp : String → String → Bool)
    (contextData : ContextData) : Bool → CondBlock → Except String Bool
  | ret, [] => .ok ret
  | ret, p :: rest =>
    match CONDITIONAL_FUNCS cmp p.1 with
    | none => .error ("Unknown property in conditional block " ++ p.1)
    | some func =>
      if ret then
        match func contextData p.2 with
        | .error e => .error e
        | .ok b => resolveConditionalAux cmp contextData b rest
      else resolveConditionalAux cmp contextData false rest

/-- `SystemStats.prototype._resolveConditional`: evaluate a conditional block
against the context, starting from `ret = true`. -/
def resolveConditional (cmp : String → String → Bool)
    (contextData : ContextData) (conditionalBlock : CondBlock) :
    Except String Bool :=
  resolveConditionalAux cmp contextData true conditionalBlock

theorem resolveConditionalAux_false_of_all_registered
    (cmp : String → String → Bool) (ctx : ContextData) (block : CondBlock)
    (hreg : ∀ p ∈ block, (CONDITIONAL_FUNCS cmp p.1).isSome) :
    resolveConditionalAux cmp ctx false block = .ok false := by
  induction block with
  | nil => rfl
  | cons q rest ih =>
    have hq := hreg q (List.mem_cons_self q rest)
    rcases Option.isSome_iff_exists.mp hq with ⟨f, hf⟩
    simp only [resolveConditionalAux, hf]
    exact ih (fun p hp => hreg p (List.mem_cons_of_mem q hp))

theorem resolveConditionalAux_error_of_unknown
    (cmp : String → String → Bool) (ctx : ContextData) (block : CondBlock)
    (ret : Bool) (h : ∃ p ∈ block, CONDITIONAL_FUNCS cmp p.1 = none) :
    ∃ e, resolveConditionalAux cmp ctx ret block = .error e := by
  induction block generalizing ret with
  | nil => simp at h
  | cons q rest ih =>
    cases hq : CONDITIONAL_FUNCS cmp q.1 with
    | none =>
      exact ⟨"Unknown property in conditional block " ++ q.1,
        by simp only [resolveConditionalAux, hq]⟩
    | some f =>
      have hrest : ∃ p ∈ rest, CONDITIONAL_FUNCS cmp p.1 = none := by
        rcases h with ⟨p, hp, hnone⟩
        rcases List.mem_cons.mp hp with hpq | hpr
        · rw [hpq] at hnone
          rw [hnone] at hq
          exact absurd hq (by simp)
        · exact ⟨p, hpr, hnone⟩
      cases ret with
      | false =>
        simp only [resolveConditionalAux, hq]
        exact ih false hrest
      | true =>
        simp only [resolveConditionalAux, hq]
        cases hfe : f ctx q.2 with
        | error e => exact ⟨e, by simp [hfe]⟩
        | ok b =>
          simp only [hfe, if_pos trivial]
          exact ih b hrest

theorem resolveConditionalAux_names_first_unknown
    (cmp : String → String → Bool) (ctx : ContextData)
    (pre : CondBlock) (q : String × String) (post : CondBlock)
    (hq : CONDITIONAL_FUNCS cmp q.1 = none)
    (hpre : ∀ p ∈ pre, ∃ f, CONDITIONAL_FUNCS cmp p.1 = some f ∧
      ∃ b, f ctx p.2 = Except.ok b) :
    ∀ ret, resolveConditionalAux cmp ctx ret (pre ++ q :: post) =
      .error ("Unknown property in conditional block " ++ q.1) := by
  induction pre with
  | nil =>
    intro ret
    simp only [List.nil_append, resolveConditionalAux, hq]
  | cons p pre' ih =>
    intro ret
    rcases hpre p (List.mem_cons_self p pre') with ⟨f, hf, b, hb⟩
    have ih' := ih (fun x hx => hpre x (List.mem_cons_of_mem p hx))
    cases ret with
    | false => simp only [List.cons_append, resolveConditionalAux, hf]; exact ih' false
    | true => simp only [List.cons_append, resolveConditionalAux, hf, hb]; exact ih' b

/-- **C3** (amended): a conditional block containing a key that names no
registered predicate never evaluates to a result — `_resolveConditional`
always throws.  When every registered predicate on a key before the first
unregistered key evaluates without throwing, the thrown error is
`Unknown property in conditional block <key>`, naming that first unregistered
key; the only other possibility is that such an earlier predicate itself
throws, in which case that predicate's own error propagates instead. -/
theorem resolveConditional_unknown_key_errors
    (cmp : String → String → Bool) (ctx : ContextData) (block : CondBlock)
    (h : ∃ p ∈ block, CONDITIONAL_FUNCS cmp p.1 = none) :
    (∃ e, resolveConditional cmp ctx block = .error e) ∧
    (∀ pre q post,
      block = pre ++ q :: post →
      CONDITIONAL_FUNCS cmp q.1 = none →
      (∀ p ∈ pre, ∃ f, CONDITIONAL_FUNCS cmp p.1 = some f ∧
        ∃ b, f ctx p.2 = Except.ok b) →
      resolveConditional cmp ctx block =
        .error ("Unknown property in conditional block " ++ q.1)) := by
  constructor
  · exact resolveConditionalAux_error_of_unknown cmp ctx block true h
  · intro pre q post hblk hq hpre
    rw [hblk]
    exact resolveConditionalAux_names_first_unknown cmp ctx pre q post hq hpre true

/-- **C3** witness: a block whose single key `bogus` is unregistered throws
the error naming it. -/
theorem resolveConditional_unknown_key_errors_witness :
    resolveConditional (fun _ _ => true) {} [("bogus", "x")] =
      .error ("Unknown property in conditional block " ++ "bogus") :=
  (resolveConditional_unknown_key_errors (fun _ _ => true) {} [("bogus", "x")]
    ⟨("bogus", "x"), List.mem_cons_self _ _, rfl⟩).2 [] ("bogus", "x") [] rfl rfl
    (fun p hp => absurd hp (List.not_mem_nil p))

/-- **C3** counterexample: the claim as stated — "evaluation raises an error
naming the unregistered key" — fails when a registered predicate earlier in
the block throws first: with no `deviceVersion` in the context, the block
`{deviceVersionGreaterOrEqual: "13.0", bogus: "x"}` throws the predicate's
own context error, which does not name the unregistered key `bogus`. -/
theorem resolveConditional_unknown_key_not_named :
    resolveConditional (fun _ _ => true) {}
      [("deviceVersionGreaterOrEqual", "13.0"), ("bogus", "x")] =
      .error "deviceVersionGreaterOrEqual: context has no property 'deviceVersion'" ∧
    CONDITIONAL_FUNCS (fun _ _ => true) "bogus" = none ∧
    mentions "deviceVersionGreaterOrEqual: context has no property 'deviceVersion'"
      "bogus" = false := by
  refine ⟨rfl, rfl, ?_⟩
  decide

theorem resolveConditionalAux_true_iff_all
    (cmp : String → String → Bool) (ctx : ContextData) (block : CondBlock)
    (hall : ∀ p ∈ block, ∃ f, CONDITIONAL_FUNCS cmp p.1 = some f ∧
      ∃ b, f ctx p.2 = Except.ok b) :
    (resolveConditionalAux cmp ctx true block = .ok true ↔
      ∀ p ∈ block, ∀ f, CONDITIONAL_FUNCS cmp p.1 = some f →
        f ctx p.2 = .ok true) := by
  induction block with
  | nil => simp [resolveConditionalAux]
  | cons q rest ih =>
    rcases hall q (List.mem_cons_self q rest) with ⟨f, hf, b, hb⟩
    have hallrest := fun p hp => hall p (List.mem_cons_of_mem q hp)
    simp only [resolveConditionalAux, hf, hb, if_pos trivial]
    cases b with
    | true =>
      rw [ih hallrest]
      constructor
      · intro hrest p hp f' hf'
        rcases List.mem_cons.mp hp with hpq | hpr
        · subst hpq
          rw [hf'] at hf
          cases hf
          exact hb
        · exact hrest p hpr f' hf'
      · intro hfull p hp f' hf'
        exact hfull p (List.mem_cons_of_mem q hp) f' hf'
    | false =>
      have hreg : ∀ p ∈ rest, (CONDITIONAL_FUNCS cmp p.1).isSome := by
        intro p hp
        rcases hallrest p hp with ⟨f', hf', _⟩
        simp [hf']
      rw [resolveConditionalAux_false_of_all_registered cmp ctx rest hreg]
      constructor
      · intro hcontra
        cases hcontra
      · intro hfull
        have := hfull q (List.mem_cons_self q rest) f hf
        rw [this] at hb
        cases hb

theorem resolveConditionalAux_short_circuit
    (cmp : String → String → Bool) (ctx : ContextData)
    (pre : CondBlock) (q : String × String) (post : CondBlock)
    (fq : ContextData → String → Except String Bool)
    (hpre : ∀ p ∈ pre, ∃ f, CONDITIONAL_FUNCS cmp p.1 = some f ∧
      f ctx p.2 = Except.ok true)
    (hfq : CONDITIONAL_FUNCS cmp q.1 = some fq)
    (hq : fq ctx q.2 = .ok false)
    (hpost : ∀ p ∈ post, (CONDITIONAL_FUNCS cmp p.1).isSome) :
    resolveConditionalAux cmp ctx true (pre ++ q :: post) = .ok false := by
  induction pre with
  | nil =>
    simp only [List.nil_append, resolveConditionalAux, hfq, hq, if_pos trivial]
    exact resolveConditionalAux_false_of_all_registered cmp ctx post hpost
  | cons p pre' ih =>
    rcases hpre p (List.mem_cons_self p pre') with ⟨f, hf, hb⟩
    simp only [List.cons_append, resolveConditionalAux, hf, hb, if_pos trivial]
    exact ih (fun x hx => hpre x (List.mem_cons_of_mem p hx))

/-- **C10**: on a conditional block whose keys all name registered
predicates, `_resolveConditional` returns `true` exactly when every predicate
returns `true` on the context (provided each predicate evaluates without
throwing); and once some predicate has returned `false`, the `&&`
short-circuit keeps the remaining predicate functions from being invoked, so
the call returns `false` even when a later predicate would have thrown (for
example on a missing context field). -/
theorem resolveConditional_conjunction_and_short_circuit
    (cmp : String → String → Bool) (ctx : ContextData) (block : CondBlock) :
    ((∀ p ∈ block, ∃ f, CONDITIONAL_FUNCS cmp p.1 = some f ∧
        ∃ b, f ctx p.2 = Except.ok b) →
      (resolveConditional cmp ctx block = .ok true ↔
        ∀ p ∈ block, ∀ f, CONDITIONAL_FUNCS cmp p.1 = some f →
          f ctx p.2 = .ok true)) ∧
    (∀ pre q post fq,
      block = pre ++ q :: post →
      (∀ p ∈ pre, ∃ f, CONDITIONAL_FUNCS cmp p.1 = some f ∧
        f ctx p.2 = Except.ok true) →
      CONDITIONAL_FUNCS cmp q.1 = some fq →
      fq ctx q.2 = .ok false →
      (∀ p ∈ post, (CONDITIONAL_FUNCS cmp p.1).isSome) →
      resolveConditional cmp ctx block = .ok false) := by
  constructor
  · exact resolveConditionalAux_true_iff_all cmp ctx block
  · intro pre q post fq hblk hpre hfq hq hpost
    rw [hblk]
    exact resolveConditionalAux_short_circuit cmp ctx pre q post fq hpre hfq hq hpost

/-- **C10** witness: with `provisioning` present but `ltm` not provisioned and
`deviceVersion` absent, the block
`{isModuleProvisioned: "ltm", deviceVersionGreaterOrEqual: "13.1"}` resolves
to `false` — the second predicate, which would throw on this context, is
never invoked. -/
theorem resolveConditional_conjunction_and_short_circuit_witness :
    resolveConditional (fun _ _ => true) { provisioning := some [] }
      [("isModuleProvisioned", "ltm"), ("deviceVersionGreaterOrEqual", "13.1")] =
      .ok false ∧
    deviceVersionGreaterOrEqual (fun _ _ => true) { provisioning := some [] } "13.1" =
      .error "deviceVersionGreaterOrEqual: context has no property 'deviceVersion'" :=
  ⟨(resolveConditional_conjunction_and_short_circuit (fun _ _ => true)
      { provisioning := some [] }
      [("isModuleProvisioned", "ltm"), ("deviceVersionGreaterOrEqual", "13.1")]).2
    [] ("isModuleProvisioned", "ltm") [("deviceVersionGreaterOrEqual", "13.1")]
    isModuleProvisioned rfl
    (fun p hp => absurd hp (List.not_mem_nil p)) rfl rfl
    (by intro p hp
        rcases List.mem_cons.mp hp with hpq | hpr
        · rw [hpq]; rfl
        · exact absurd hpr (List.not_mem_nil p)),
   rfl⟩

/-- A property object as `_preprocessProperty` sees it: its non-conditional
fields, plus the three conditional keys `if` / `then` / `else`, each possibly
absent.  (`while (property)` exits on any falsy branch value; `Option`
models the `undefined` that an absent `then`/`else` yields.) -/
inductive CondProperty where
  | mk (fields : JObj) (ifB : Option CondBlock)
       (thenB : Option CondProperty) (elseB : Option CondProperty)

/-- The non-conditional fields of a property. -/
def CondProperty.fields : CondProperty → JObj
  | .mk f _ _ _ => f

/-- The property's `if` block, when present. -/
def CondProperty.ifB : CondProperty → Option CondBlock
  | .mk _ i _ _ => i

/-- The property's `then` branch, when present. -/
def CondProperty.thenB : CondProperty → Option CondProperty
  | .mk _ _ t _ => t

/-- The property's `else` branch, when present. -/
def CondProperty.elseB : CondProperty → Option CondProperty
  | .mk _ _ _ e => e

/-- The `while (property)` loop of `_preprocessProperty`: copy every
non-conditional field of the current level into the accumulator `newObj`
(later levels overwrite, exactly as repeated `newObj[key] = property[key]`
does), stop when there is no nested `if`, otherwise resolve the conditional
and descend into `then` or `else`; descending into an absent branch makes
`property` falsy, which ends the loop with only the fields accumulated so
far.  A thrown error (from `_resolveConditional`) propagates. -/
def preprocessLoop (cmp : String → String → Bool) (ctx : ContextData) :
    JObj → Option CondProperty → Except String JObj
  | newObj, none => .ok newObj
  | newObj, some (.mk fields ifB thenB elseB) =>
    let newObj' := objAssign newObj fields
    match ifB with
    | none => .ok newObj'
    | some blk =>
      match resolveConditional cmp ctx blk with
      | .error e => .error e
      | .ok true => preprocessLoop cmp ctx newObj' thenB
      | .ok false => preprocessLoop cmp ctx newObj' elseB

/-- `SystemStats.prototype._preprocessProperty`: a property without a
top-level `if` is returned as is (deep-copied); otherwise the loop above
flattens it into a bare field object with no `if`, `then` or `else`. -/
def preprocessProperty (cmp : String → String → Bool) (ctx : ContextData)
    (property : CondProperty) : Except String CondProperty :=
  match property.ifB with
  | none => .ok property
  | some _ =>
    (preprocessLoop cmp ctx [] (some property)).map
      (fun newObj => CondProperty.mk newObj none none none)

/-- **C4**: on every conditional property (one with an `if` block) and every
context, `_preprocessProperty` terminates (the model is a total, structurally
recursive function over the finite `if`/`then`/`else` tree) and any
successfully returned property carries no `if`, `then` or `else` field;
moreover when the resolved conditional selects an absent `then` branch,
resolution stops right there with exactly the fields accumulated so far
(for a one-level conditional: the property's own non-conditional fields). -/
theorem preprocessProperty_flattens (cmp : String → String → Bool)
    (ctx : ContextData) (p : CondProperty) (h : p.ifB.isSome) :
    (∀ q, preprocessProperty cmp ctx p = .ok q →
      q.ifB = none ∧ q.thenB = none ∧ q.elseB = none) ∧
    (∀ fields blk elseB,
      p = CondProperty.mk fields (some blk) none elseB →
      resolveConditional cmp ctx blk = .ok true →
      preprocessProperty cmp ctx p =
        .ok (CondProperty.mk (objAssign [] fields) none none none)) := by
  constructor
  · intro q hq
    rcases Option.isSome_iff_exists.mp h with ⟨blk, hblk⟩
    unfold preprocessProperty at hq
    rw [hblk] at hq
    cases hres : preprocessLoop cmp ctx [] (some p) with
    | error e => rw [hres] at hq; cases hq
    | ok newObj =>
      rw [hres] at hq
      cases hq
      exact ⟨rfl, rfl, rfl⟩
  · intro fields blk elseB hp hres
    subst hp
    unfold preprocessProperty
    simp only [CondProperty.ifB]
    unfold preprocessLoop
    simp only [hres]
    simp only [preprocessLoop, Except.map]

/-- **C4** witness: a concrete conditional property whose predicate resolves
to `true` and whose `then` branch is absent flattens to exactly its own
non-conditional fields.  (`ltm` is provisioned at level `nominal` in the
context used.) -/
theorem preprocessProperty_flattens_witness :
    preprocessProperty (fun _ _ => true)
      { provisioning := some [("ltm", { level := some "nominal" })] }
      (CondProperty.mk [("key", JVal.str "ltm/virtual")]
        (some [("isModuleProvisioned", "ltm")]) none
        (some (CondProperty.mk [("disabled", JVal.bool true)] none none none))) =
      .ok (CondProperty.mk (objAssign [] [("key", JVal.str "ltm/virtual")])
        none none none) :=
  (preprocessProperty_flattens (fun _ _ => true)
      { provisioning := some [("ltm", { level := some "nominal" })] }
      (CondProperty.mk [("key", JVal.str "ltm/virtual")]
        (some [("isModuleProvisioned", "ltm")]) none
        (some (CondProperty.mk [("disabled", JVal.bool true)] none none none)))
      rfl).2
    [("key", JVal.str "ltm/virtual")] [("isModuleProvisioned", "ltm")]
    (some (CondProperty.mk [("disabled", JVal.bool true)] none none none))
    rfl rfl

/-! ## Context phase scheduling (`_computeContextData`)

The cooperative scheduler is modelled with ticks: tick 0 is the synchronous
turn in which `_computeContextData` itself runs; a phase whose slowest
endpoint load takes `d ≥ 1` ticks from the moment its loads are issued has
its join-and-publish callback (the `Promise.all(...).then` of
`_processContext`, which copies the phase's results into
`this.contextData`) run at issue tick + `d`.  A load issued during a
synchronous turn can never resolve within that same turn.

`_processContext(phase)` issues all of the phase's endpoint loads at the
moment it is *called* (the `new Promise` executor inside `_loadData` runs
synchronously and calls `loader.loadEndpoint` right away), so a phase's
start tick is the tick of the call to `_processContext`. -/

/-- Tick at which a phase's loads are issued when `_processContext` is called
at `callTick`. -/
def processContextStartTick (callTick : Nat) : Nat := callTick

/-- Tick at which a phase with load duration `dur` publishes its results when
`_processContext` was called at `callTick`. -/
def processContextCompleteTick (callTick dur : Nat) : Nat := callTick + dur

/-- `_computeContextData` on an array of phases, as written: phase 0 is
started by `promise = this._processContext(contextData[0])`, and each later
phase `i` is started by the loop body
`promise.then(this._processContext(contextData[i]))`, which *evaluates its
argument immediately* — `.then` receives the promise that this call returns
(not a callback), so the call is neither deferred behind `promise` nor
chained into it.  Every `_processContext` call therefore happens during the
single synchronous turn (tick 0) in which `_computeContextData` runs; the
returned list gives each phase's start tick. -/
def computeContextDataStartTicks (phaseDurs : List Nat) : List Nat :=
  phaseDurs.map (fun _ => processContextStartTick 0)

/-- The corresponding publication tick of each phase: its loads were issued
at tick 0, so phase `i` publishes at its own duration. -/
def computeContextDataCompleteTicks (phaseDurs : List Nat) : List Nat :=
  phaseDurs.map (fun d => processContextCompleteTick 0 d)

/-- Strict phase sequencing as the claim states it: no phase starts resolving
before the previous phase has completed and published. -/
def StrictlySequenced (starts completes : List Nat) : Prop :=
  ∀ i c s, completes.get? i = some c → starts.get? (i + 1) = some s → c ≤ s

/-- **C1**: the claimed strict phase sequencing fails on the code.  With two
phases whose loads each take one tick, phase 1's loads are issued at tick 0 —
during the very synchronous turn that starts phase 0 — while phase 0 only
publishes its results at tick 1: phase 1 begins resolving before phase 0 has
resolved and published. -/
theorem computeContextData_not_strictly_sequenced :
    (computeContextDataStartTicks [1, 1]).get? 1 = some 0 ∧
    (computeContextDataCompleteTicks [1, 1]).get? 0 = some 1 ∧
    ¬ StrictlySequenced (computeContextDataStartTicks [1, 1])
      (computeContextDataCompleteTicks [1, 1]) := by
  refine ⟨rfl, rfl, ?_⟩
  intro h
  have := h 0 1 0 rfl rfl
  exact absurd this (by decide)

/-! ## Stats property processing (`SystemStats`)

`properties.json`, `paths.json`, `normalize.js`, `util.js` and
`endpointLoader.js` are configuration and collaborators outside the provided
sources: the global config values, the tag definitions, the caller tags, the
normalization engine (`norm`) and the endpoint loader (`load`) are therefore
explicit parameters of the model.  `constants.STATS_KEY_SEP` is modelled from
the spec as `/` ("root endpoint id + optional `/`-joined child path"). -/

/-- Structural split of a character list on a separator (the semantics of
`String.prototype.split` for a one-character separator). -/
def splitChars (sep : Char) : List Char → List (List Char)
  | [] => [[]]
  | c :: rest =>
    let r := splitChars sep rest
    if c = sep then [] :: r
    else
      match r with
      | [] => [[c]]
      | g :: gs => (c :: g) :: gs

/-- Join character-list segments with a separator (the semantics of
`Array.prototype.join`). -/
def joinChars (sep : Char) : List (List Char) → List Char
  | [] => []
  | [g] => g
  | g :: gs => g ++ sep :: joinChars sep gs

/-- The `{ rootKey, childKey }` result of `_splitKey`. -/
structure SplitKey where
  rootKey : String
  childKey : Option String

/-- `SystemStats.prototype._splitKey`: split on the stats key separator, the
first segment is the root key, the remaining segments re-joined are the
child key (absent when there are no remaining segments). -/
def splitKey (key : String) : SplitKey :=
  match splitChars '/' key.data with
  | [] => { rootKey := "", childKey := none }
  | root :: rest =>
    { rootKey := String.mk root
      childKey :=
        if rest = [] then none else some (String.mk (joinChars '/' rest)) }

/-- The `structure` hint of a stats property (`folder`, `parentKey`). -/
structure StructureHint where
  folder : Bool := false
  parentKey : Option String := none

/-- A resolved stats property (after `_preprocessProperty` flattening and
`_renderProperty` template rendering), with the fields the processing code
reads.  `struct` is the source's `structure` field (a Lean keyword);
`normalize := false` models the literal `normalize === false` opt-out;
option-valued fields model possibly-absent JS fields. -/
structure StatProperty where
  key : String := ""
  keyArgs : Option JVal := none
  disabled : Bool := false
  struct : Option StructureHint := none
  normalize : Bool := true
  filterKeys : Option JVal := none
  renameKeys : Option JVal := none
  convertArrayToMap : Option JVal := none
  includeFirstEntry : Option JVal := none
  runFunctions : Option JVal := none
  addKeysByTag : Option JVal := none

/-- The global config section of the properties document
(`properties.json` is not part of the provided sources, so its values are
parameters). -/
structure GlobalCfg where
  filterKeys : JVal
  renameKeys : JVal
  formatTimestampsKeys : JVal
  addKeysByTag : JVal

/-- The built-in default tag spec of `_processData`:
`{ name: { pattern: '(.*)', group: 1 } }`. -/
def defaultTags : JObj :=
  [("name", JVal.obj [("pattern", JVal.str "(.*)"), ("group", JVal.num 1)])]

/-- The `addKeysByTag` option group handed to `normalize.data`. -/
structure AddKeysByTagOptions where
  tags : JObj
  definitions : JVal
  opts : JVal

/-- The options object `_processData` assembles for `normalize.data`. -/
structure NormalizeOptions where
  key : Option String
  filterByKeys : List JVal
  renameKeysByPattern : List JVal
  convertArrayToMap : Option JVal
  includeFirstEntry : Option JVal
  formatTimestamps : JVal
  runCustomFunctions : Option JVal
  addKeysByTag : AddKeysByTagOptions
  propertyKey : String

/-- The options assembly of `_processData` (src lines 133–152): child key
from `_splitKey`; property filter/rename specs prepended to the global ones
when (truthily) present; `addKeysByTag.tags` is
`property.addKeysByTag ? Object.assign(defaultTags, this.tags) : defaultTags`
and `addKeysByTag.opts` is the property's own `addKeysByTag` exactly when it
is a (truthy) object, the global default otherwise. -/
def processDataOptions (g : GlobalCfg) (definitions : JVal) (tags : JObj)
    (p : StatProperty) (key : String) : NormalizeOptions :=
  { key := (splitKey p.key).childKey
    filterByKeys :=
      match p.filterKeys with
      | some v => if v.truthy then [v, g.filterKeys] else [g.filterKeys]
      | none => [g.filterKeys]
    renameKeysByPattern :=
      match p.renameKeys with
      | some v => if v.truthy then [v, g.renameKeys] else [g.renameKeys]
      | none => [g.renameKeys]
    convertArrayToMap := p.convertArrayToMap
    includeFirstEntry := p.includeFirstEntry
    formatTimestamps := g.formatTimestampsKeys
    runCustomFunctions := p.runFunctions
    addKeysByTag :=
      { tags :=
          match p.addKeysByTag with
          | some v => if v.truthy then objAssign defaultTags tags else defaultTags
          | none => defaultTags
        definitions := definitions
        opts :=
          match p.addKeysByTag with
          | some v => if v.truthy && v.typeofObject then v else g.addKeysByTag
          | none => g.addKeysByTag }
    propertyKey := key }

/-- `SystemStats.prototype._processData`: raw pass-through when the property
opts out with `normalize === false`, otherwise `normalize.data` (the engine
itself lives in normalize.js, outside the provided sources — abstracted as
`norm`). -/
def processData (norm : NormalizeOptions → JObj → Except String JVal)
    (g : GlobalCfg) (definitions : JVal) (tags : JObj)
    (p : StatProperty) (data : JObj) (key : String) : Except String JVal :=
  if p.normalize = false then .ok (JVal.obj data)
  else norm (processDataOptions g definitions tags p key) data

/-- `SystemStats.prototype._loadData`: resolve the endpoint from the key's
root, call the loader, reject with the loader's error, otherwise default a
falsy `items` field of the payload to `[]` and resolve with the payload. -/
def loadData (load : String → Option JVal → Except String JObj)
    (p : StatProperty) : Except String JObj :=
  match load (splitKey p.key).rootKey p.keyArgs with
  | .error err => .error err
  | .ok data =>
    .ok (if optTruthy (objGet data "items") then data
         else objSet data "items" (JVal.arr []))

/-- The annotated message `_processProperty`'s `.catch` hands to
`logger.error` before re-rejecting the original error. -/
def ppErrMsg (key : String) (p : StatProperty) (err : String) : String :=
  "Error: SystemStats._processProperty: " ++ key ++ " (" ++ p.key ++ "): " ++ err

/-- Evaluator state threaded through property processing: the in-flight
`this.collectedData` and the log written through `logger.error`. -/
structure PPState where
  collectedData : JObj := []
  log : List String := []

/-- The outcome of `_processProperty` on one (already resolved and rendered)
property: `.ok none` for a disabled property (nothing written), `.ok (some
v)` for the value written to `collectedData[key]` (an empty object for a
pure folder, the loaded-and-processed data otherwise), `.error e` for the
original error of a failed load or normalization. -/
def processPropertyResult (load : String → Option JVal → Except String JObj)
    (norm : NormalizeOptions → JObj → Except String JVal)
    (g : GlobalCfg) (definitions : JVal) (tags : JObj)
    (key : String) (p : StatProperty) : Except String (Option JVal) :=
  if p.disabled then .ok none
  else if (match p.struct with | some s => s.folder | none => false) then
    .ok (some (JVal.obj []))
  else
    match loadData load p with
    | .error e => .error e
    | .ok data =>
      match processData norm g definitions tags p data key with
      | .error e => .error e
      | .ok v => .ok (some v)

/-- `SystemStats.prototype._processProperty` (lines 185–210), over a property
already put through `_preprocessProperty`/`_renderProperty` (the claims
quantify over resolved properties): a disabled property produces nothing; a
`structure.folder === true` property stores an empty object; otherwise the
loaded data is processed and stored; on failure the `.catch` logs the
annotated message (`ppErrMsg`) and re-rejects the *original* error `err`. -/
def processProperty (load : String → Option JVal → Except String JObj)
    (norm : NormalizeOptions → JObj → Except String JVal)
    (g : GlobalCfg) (definitions : JVal) (tags : JObj)
    (st : PPState) (key : String) (p : StatProperty) :
    Except String Unit × PPState :=
  match processPropertyResult load norm g definitions tags key p with
  | .error e => (.error e, { st with log := st.log ++ [ppErrMsg key p e] })
  | .ok none => (.ok (), st)
  | .ok (some v) =>
    (.ok (), { st with collectedData := objSet st.collectedData key v })

/-- One join step of `_computePropertiesData`'s `Promise.all`: process the
property (its side effects on `collectedData` and the log happen whether or
not an earlier sibling already failed, since all promises are created
up front and nothing is cancelled) and keep the first rejection as the
joined outcome. -/
def processStep (load : String → Option JVal → Except String JObj)
    (norm : NormalizeOptions → JObj → Except String JVal)
    (g : GlobalCfg) (definitions : JVal) (tags : JObj)
    (acc : Except String Unit × PPState) (kp : String × StatProperty) :
    Except String Unit × PPState :=
  let r := processProperty load norm g definitions tags acc.2 kp.1 kp.2
  (match acc.1 with
   | .error e => .error e
   | .ok _ => r.1, r.2)

/-- `SystemStats.prototype._computePropertiesData`: `Promise.all` over the
mapped `_processProperty` calls.  All properties are processed, and the
joined outcome is the first rejection in declaration order — the model's
determinization of `Promise.all`'s all-succeed / first-failure semantics. -/
def computePropertiesData (load : String → Option JVal → Except String JObj)
    (norm : NormalizeOptions → JObj → Except String JVal)
    (g : GlobalCfg) (definitions : JVal) (tags : JObj)
    (stats : List (String × StatProperty)) (st : PPState) :
    Except String Unit × PPState :=
  stats.foldl (processStep load norm g definitions tags) (.ok (), st)

/-- First association for `k` in the stats document (`stats[key]`). -/
def getStat (stats : List (String × StatProperty)) (k : String) :
    Option StatProperty :=
  lookupA stats k

/-- First half of `collect`'s reshape: `data[key] = this.collectedData[key]`
for every declared key in declared order (an absent collected entry reads as
`undefined`, and the assignment still creates the key). -/
def orderData (stats : List (String × StatProperty)) (collected : JObj) : JObj :=
  stats.foldl (fun d kp => objSet d kp.1 (objGetD collected kp.1)) []

/-- `(stats[key] || {}).structure`: the declared structure hint of `key`,
absent when the key is not declared or declares none. -/
def structOf (stats : List (String × StatProperty)) (k : String) :
    Option StructureHint :=
  match getStat stats k with
  | some st => st.struct
  | none => none

/-- The field list of a value that is a plain object, `none` otherwise
(used to model which values can receive a property assignment in the
relocation pass). -/
def asObj : Option JVal → Option (List (String × JVal))
  | some (JVal.obj po) => some po
  | _ => none

/-- One iteration of `collect`'s relocation pass for `key`: with
`stat = stats[key] || {}`, when `stat.structure` exists and is not a folder,
execute `data[stat.structure.parentKey][key] = data[key]; delete data[key]`.
A missing `parentKey`, or a parent slot that does not currently hold an
object able to receive the assignment, is the thrown `TypeError` this would
produce in JS (relocation parents in this repository are folder-collected
`{}` objects). -/
def relocateOne (stats : List (String × StatProperty)) (d : JObj)
    (key : String) : Except String JObj :=
  match structOf stats key with
  | some s =>
    if s.folder then .ok d
    else
      match s.parentKey with
      | none => .error ("TypeError: undefined parentKey for " ++ key)
      | some parentKey =>
        match asObj (objGet d parentKey) with
        | some po =>
          .ok (objDel (objSet d parentKey
            (JVal.obj (objSet po key (objGetD d key)))) key)
        | none => .error ("TypeError: data[" ++ parentKey ++ "] is not an object")
  | none => .ok d

/-- Second half of `collect`'s reshape: iterate the snapshot of
`Object.keys(data)` taken before the pass, relocating each structural child
under its parent. -/
def processStructure (stats : List (String × StatProperty)) (d : JObj) :
    Except String JObj :=
  (d.map Prod.fst).foldlM (relocateOne stats) d

/-- The whole reshape step of `collect` (lines 289–305): order the collected
data by declared property order, then relocate structural children. -/
def reshape (stats : List (String × StatProperty)) (collected : JObj) :
    Except String JObj :=
  processStructure stats (orderData stats collected)

/-- `SystemStats.prototype.collect` after a successful `auth()` and context
computation (both folded into the abstract loader): compute all stats
properties, reshape, and on any failure log
`Error: SystemStats.collect: <err>` and reject with the error itself.
Returns the settled outcome together with the log. -/
def collect (load : String → Option JVal → Except String JObj)
    (norm : NormalizeOptions → JObj → Except String JVal)
    (g : GlobalCfg) (definitions : JVal) (tags : JObj)
    (stats : List (String × StatProperty)) :
    Except String JObj × List String :=
  let r := computePropertiesData load norm g definitions tags stats {}
  match r.1 with
  | .error e => (.error e, r.2.log ++ ["Error: SystemStats.collect: " ++ e])
  | .ok _ =>
    match reshape stats r.2.collectedData with
    | .error e => (.error e, r.2.log ++ ["Error: SystemStats.collect: " ++ e])
    | .ok data => (.ok data, r.2.log)

/-- Sample global config used by concrete instances. -/
def gSample : GlobalCfg :=
  { filterKeys := JVal.obj []
    renameKeys := JVal.obj []
    formatTimestampsKeys := JVal.arr [JVal.str "systemTimestamp"]
    addKeysByTag := JVal.obj [("skip", JVal.arr [])] }

/-- Sample tag definitions value used by concrete instances. -/
def defsSample : JVal := JVal.obj []

/-- **C8** (amended): the tag set handed to normalization is the built-in
default `name` tag merged with the caller-supplied per-collection tags *only
when the property declares a (truthy) `addKeysByTag`*; a property without
one gets just the default `name` tag, with the caller's tags left out.  A
property-specific `addKeysByTag` that is a (truthy) object does override
the injection opts, which otherwise fall back to the global default. -/
theorem processData_tag_set (g : GlobalCfg) (definitions : JVal) (tags : JObj)
    (p : StatProperty) (key : String) :
    (optTruthy p.addKeysByTag = true →
      (processDataOptions g definitions tags p key).addKeysByTag.tags =
        objAssign defaultTags tags) ∧
    (optTruthy p.addKeysByTag = false →
      (processDataOptions g definitions tags p key).addKeysByTag.tags =
        defaultTags) ∧
    (∀ v, p.addKeysByTag = some v → v.truthy = true → v.typeofObject = true →
      (processDataOptions g definitions tags p key).addKeysByTag.opts = v) ∧
    ((match p.addKeysByTag with
      | some v => v.truthy && v.typeofObject
      | none => false) = false →
      (processDataOptions g definitions tags p key).addKeysByTag.opts =
        g.addKeysByTag) := by
  cases hak : p.addKeysByTag with
  | none =>
    refine ⟨?_, ?_, ?_, ?_⟩
    · intro h
      simp [optTruthy] at h
    · intro _
      simp [processDataOptions, hak]
    · intro v hv
      exact absurd hv (by simp)
    · intro _
      simp [processDataOptions, hak]
  | some v =>
    refine ⟨?_, ?_, ?_, ?_⟩
    · intro h
      simp only [optTruthy] at h
      simp [processDataOptions, hak, h]
    · intro h
      simp only [optTruthy] at h
      simp [processDataOptions, hak, h]
    · intro v' hv' htr hobj
      injection hv' with hvv
      subst hvv
      simp [processDataOptions, hak, htr, hobj]
    · intro h
      simp only [Bool.and_eq_false_iff] at h
      rcases h with h | h
      · simp [processDataOptions, hak, h]
      · simp [processDataOptions, hak, h]

/-- **C8** witness: a property declaring `addKeysByTag: {skip: true}` gets
the default `name` tag merged with the caller tag `env`, and its own object
as the injection opts. -/
theorem processData_tag_set_witness :
    (processDataOptions gSample defsSample [("env", JVal.str "prod")]
      { key := "ltm/pool", addKeysByTag := some (JVal.obj [("skip", JVal.bool true)]) }
      "pools").addKeysByTag.tags =
      objAssign defaultTags [("env", JVal.str "prod")] ∧
    (processDataOptions gSample defsSample [("env", JVal.str "prod")]
      { key := "ltm/pool", addKeysByTag := some (JVal.obj [("skip", JVal.bool true)]) }
      "pools").addKeysByTag.opts = JVal.obj [("skip", JVal.bool true)] :=
  ⟨(processData_tag_set gSample defsSample [("env", JVal.str "prod")]
      { key := "ltm/pool", addKeysByTag := some (JVal.obj [("skip", JVal.bool true)]) }
      "pools").1 rfl,
   (processData_tag_set gSample defsSample [("env", JVal.str "prod")]
      { key := "ltm/pool", addKeysByTag := some (JVal.obj [("skip", JVal.bool true)]) }
      "pools").2.2.1 (JVal.obj [("skip", JVal.bool true)]) rfl rfl rfl⟩

/-- **C8** counterexample: for a property that declares no `addKeysByTag`,
the tag set handed to normalization is just the built-in default `name`
tag — the caller-supplied tag `env` is *not* merged in, contrary to the
claim, under which the merged set would contain it. -/
theorem processData_tag_set_counterexample :
    (processDataOptions gSample defsSample [("env", JVal.str "prod")]
      { key := "sys/diskStorage" } "diskStorage").addKeysByTag.tags =
      defaultTags ∧
    objGet defaultTags "env" = none ∧
    objGet (objAssign defaultTags [("env", JVal.str "prod")]) "env" =
      some (JVal.str "prod") :=
  ⟨rfl, rfl, rfl⟩

theorem processProperty_log_extends (load : String → Option JVal → Except String JObj)
    (norm : NormalizeOptions → JObj → Except String JVal)
    (g : GlobalCfg) (definitions : JVal) (tags : JObj)
    (st : PPState) (key : String) (p : StatProperty) :
    ∃ tail, (processProperty load norm g definitions tags st key p).2.log =
      st.log ++ tail := by
  unfold processProperty
  cases processPropertyResult load norm g definitions tags key p with
  | error e => exact ⟨[ppErrMsg key p e], rfl⟩
  | ok u =>
    cases u with
    | none => exact ⟨[], by simp⟩
    | some v => exact ⟨[], by simp⟩

theorem foldl_processStep_error (load : String → Option JVal → Except String JObj)
    (norm : NormalizeOptions → JObj → Except String JVal)
    (g : GlobalCfg) (definitions : JVal) (tags : JObj)
    (rest : List (String × StatProperty)) :
    ∀ (e : String) (st : PPState),
      (rest.foldl (processStep load norm g definitions tags) (.error e, st)).1 =
        .error e ∧
      ∃ tail,
        (rest.foldl (processStep load norm g definitions tags) (.error e, st)).2.log =
          st.log ++ tail := by
  induction rest with
  | nil => exact fun e st => ⟨rfl, [], by simp⟩
  | cons x rest ih =>
    intro e st
    have hstep : processStep load norm g definitions tags (.error e, st) x =
        (.error e, (processProperty load norm g definitions tags st x.1 x.2).2) := rfl
    rw [List.foldl_cons, hstep]
    rcases ih e (processProperty load norm g definitions tags st x.1 x.2).2 with ⟨h1, t2, h2⟩
    rcases processProperty_log_extends load norm g definitions tags st x.1 x.2 with ⟨t1, ht1⟩
    exact ⟨h1, t1 ++ t2, by rw [h2, ht1, List.append_assoc]⟩

theorem computePropertiesData_first_error
    (load : String → Option JVal → Except String JObj)
    (norm : NormalizeOptions → JObj → Except String JVal)
    (g : GlobalCfg) (definitions : JVal) (tags : JObj)
    (pre : List (String × StatProperty)) (k : String) (p : StatProperty)
    (e : String) (post : List (String × StatProperty))
    (hpre : ∀ x ∈ pre, ∃ u,
      processPropertyResult load norm g definitions tags x.1 x.2 = .ok u)
    (hfail : processPropertyResult load norm g definitions tags k p = .error e) :
    ∀ st : PPState,
      (computePropertiesData load norm g definitions tags
        (pre ++ (k, p) :: post) st).1 = .error e ∧
      ppErrMsg k p e ∈
        (computePropertiesData load norm g definitions tags
          (pre ++ (k, p) :: post) st).2.log := by
  induction pre with
  | nil =>
    intro st
    have hpp : processProperty load norm g definitions tags st k p =
        (.error e, { st with log := st.log ++ [ppErrMsg k p e] }) := by
      unfold processProperty
      rw [hfail]
    have hstep : processStep load norm g definitions tags (.ok (), st) (k, p) =
        (.error e, { st with log := st.log ++ [ppErrMsg k p e] }) := by
      unfold processStep
      rw [hpp]
    unfold computePropertiesData
    rw [List.nil_append, List.foldl_cons, hstep]
    rcases foldl_processStep_error load norm g definitions tags post e
      { st with log := st.log ++ [ppErrMsg k p e] } with ⟨h1, tail, h2⟩
    refine ⟨h1, ?_⟩
    rw [h2]
    simp
  | cons x pre' ih =>
    intro st
    rcases hpre x (List.mem_cons_self x pre') with ⟨u, hu⟩
    have hih := ih (fun y hy => hpre y (List.mem_cons_of_mem x hy))
    have hpp1 : (processProperty load norm g definitions tags st x.1 x.2).1 =
        .ok () := by
      unfold processProperty
      rw [hu]
      cases u with
      | none => rfl
      | some v => rfl
    have hstep : processStep load norm g definitions tags (.ok (), st) x =
        (.ok (), (processProperty load norm g definitions tags st x.1 x.2).2) := by
      show ((processProperty load norm g definitions tags st x.1 x.2).1,
        (processProperty load norm g definitions tags st x.1 x.2).2) = _
      rw [hpp1]
    unfold computePropertiesData at hih ⊢
    rw [List.cons_append, List.foldl_cons, hstep]
    exact hih (processProperty load norm g definitions tags st x.1 x.2).2

theorem collect_eq_of_cpd_error (load : String → Option JVal → Except String JObj)
    (norm : NormalizeOptions → JObj → Except String JVal)
    (g : GlobalCfg) (definitions : JVal) (tags : JObj)
    (stats : List (String × StatProperty)) (e : String)
    (h : (computePropertiesData load norm g definitions tags stats {}).1 = .error e) :
    collect load norm g definitions tags stats =
      (.error e,
       (computePropertiesData load norm g definitions tags stats {}).2.log ++
         ["Error: SystemStats.collect: " ++ e]) := by
  unfold collect
  simp only [h]

/-- **C2** (amended): when loading (or normalizing) a property fails and
every property declared before it succeeds, `collect` rejects fail-fast with
the *original* error: the annotation naming the property's declared name and
key goes to the log (`_processProperty`'s catch), and `collect`'s own catch
logs the error again, but the propagated error itself is re-raised
unwrapped; no output tree is returned. -/
theorem collect_rejects_with_original_error
    (load : String → Option JVal → Except String JObj)
    (norm : NormalizeOptions → JObj → Except String JVal)
    (g : GlobalCfg) (definitions : JVal) (tags : JObj)
    (pre post : List (String × StatProperty)) (k : String) (p : StatProperty)
    (e : String)
    (hpre : ∀ x ∈ pre, ∃ u,
      processPropertyResult load norm g definitions tags x.1 x.2 = .ok u)
    (hfail : processPropertyResult load norm g definitions tags k p = .error e) :
    (collect load norm g definitions tags (pre ++ (k, p) :: post)).1 = .error e ∧
    ppErrMsg k p e ∈ (collect load norm g definitions tags (pre ++ (k, p) :: post)).2 ∧
    ("Error: SystemStats.collect: " ++ e) ∈
      (collect load norm g definitions tags (pre ++ (k, p) :: post)).2 ∧
    ∀ out, (collect load norm g definitions tags (pre ++ (k, p) :: post)).1 ≠
      .ok out := by
  rcases computePropertiesData_first_error load norm g definitions tags pre k p e
    post hpre hfail {} with ⟨h1, h2⟩
  have hc := collect_eq_of_cpd_error load norm g definitions tags
    (pre ++ (k, p) :: post) e h1
  rw [hc]
  refine ⟨rfl, List.mem_append_left _ h2, List.mem_append_right _ ?_, ?_⟩
  · exact List.mem_singleton.mpr rfl
  · intro out hout
    cases hout

/-- A loader that always fails, for concrete instances. -/
def loadFail : String → Option JVal → Except String JObj :=
  fun _ _ => .error "connect ECONNREFUSED"

/-- A normalization stub that passes the payload through, for concrete
instances. -/
def normThrough : NormalizeOptions → JObj → Except String JVal :=
  fun _ data => .ok (JVal.obj data)

/-- **C2** witness: a single property whose load fails makes `collect`
reject with the loader's error, while the annotated message appears in the
log. -/
theorem collect_rejects_with_original_error_witness :
    (collect loadFail normThrough gSample defsSample []
      [("systemReady", ({ key := "sys/ready" } : StatProperty))]).1 =
      .error "connect ECONNREFUSED" ∧
    ppErrMsg "systemReady" ({ key := "sys/ready" } : StatProperty) "connect ECONNREFUSED" ∈
      (collect loadFail normThrough gSample defsSample []
        [("systemReady", ({ key := "sys/ready" } : StatProperty))]).2 ∧
    ("Error: SystemStats.collect: " ++ "connect ECONNREFUSED") ∈
      (collect loadFail normThrough gSample defsSample []
        [("systemReady", ({ key := "sys/ready" } : StatProperty))]).2 ∧
    ∀ out, (collect loadFail normThrough gSample defsSample []
      [("systemReady", ({ key := "sys/ready" } : StatProperty))]).1 ≠ .ok out :=
  collect_rejects_with_original_error loadFail normThrough gSample defsSample []
    [] [] "systemReady" ({ key := "sys/ready" } : StatProperty) "connect ECONNREFUSED"
    (fun x hx => absurd hx (List.not_mem_nil x)) rfl

/-- **C2** counterexample: the claim as stated — "`collect` rejects with an
error that has been wrapped with the offending property's declared name and
key" — fails: the rejected error is the loader's error verbatim, mentioning
neither the declared name `virtualServers` nor the key `ltm/virtual`; only
the log carries the annotated message. -/
theorem collect_rejected_error_unwrapped :
    (collect loadFail normThrough gSample defsSample []
      [("virtualServers", ({ key := "ltm/virtual" } : StatProperty))]).1 =
      .error "connect ECONNREFUSED" ∧
    (collect loadFail normThrough gSample defsSample []
      [("virtualServers", ({ key := "ltm/virtual" } : StatProperty))]).2 =
      [ppErrMsg "virtualServers" ({ key := "ltm/virtual" } : StatProperty) "connect ECONNREFUSED",
       "Error: SystemStats.collect: connect ECONNREFUSED"] ∧
    mentions "connect ECONNREFUSED" "virtualServers" = false ∧
    mentions "connect ECONNREFUSED" "ltm/virtual" = false := by
  refine ⟨rfl, rfl, by decide, by decide⟩

theorem lookupA_mem {α : Type} (l : List (String × α)) (k : String) (v : α)
    (h : lookupA l k = some v) : (k, v) ∈ l := by
  induction l with
  | nil => cases h
  | cons p rest ih =>
    by_cases hp : p.1 = k
    · simp only [lookupA, if_pos hp] at h
      injection h with hv
      subst hv
      subst hp
      exact List.mem_cons_self _ _
    · simp only [lookupA, if_neg hp] at h
      exact List.mem_cons_of_mem p (ih h)

theorem lookupA_of_mem_nodup {α : Type} (l : List (String × α)) (k : String)
    (v : α) (hmem : (k, v) ∈ l) (hnd : (l.map Prod.fst).Nodup) :
    lookupA l k = some v := by
  induction l with
  | nil => cases hmem
  | cons p rest ih =>
    rcases List.mem_cons.mp hmem with hp | hp
    · subst hp
      simp [lookupA]
    · have hk : k ∈ rest.map Prod.fst :=
        List.mem_map.mpr ⟨(k, v), hp, rfl⟩
      have hnd2 : (p.1 :: rest.map Prod.fst).Nodup := by simpa using hnd
      have hnd' := List.nodup_cons.mp hnd2
      have hp1 : ¬ p.1 = k := fun hh => hnd'.1 (hh ▸ hk)
      simp only [lookupA, if_neg hp1]
      exact ih hp hnd'.2

theorem processProperty_collected_other
    (load : String → Option JVal → Except String JObj)
    (norm : NormalizeOptions → JObj → Except String JVal)
    (g : GlobalCfg) (definitions : JVal) (tags : JObj)
    (st : PPState) (key : String) (p : StatProperty) (k : String)
    (h : key ≠ k) :
    objGet (processProperty load norm g definitions tags st key p).2.collectedData k =
      objGet st.collectedData k := by
  unfold processProperty
  cases processPropertyResult load norm g definitions tags key p with
  | error e => rfl
  | ok u =>
    cases u with
    | none => rfl
    | some v => exact objGet_objSet_ne st.collectedData key k v h

theorem foldl_processStep_collected_not_mem
    (load : String → Option JVal → Except String JObj)
    (norm : NormalizeOptions → JObj → Except String JVal)
    (g : GlobalCfg) (definitions : JVal) (tags : JObj) (k : String) :
    ∀ (stats : List (String × StatProperty)), k ∉ stats.map Prod.fst →
    ∀ pr : Except String Unit × PPState,
      objGet (stats.foldl (processStep load norm g definitions tags) pr).2.collectedData k =
        objGet pr.2.collectedData k := by
  intro stats
  induction stats with
  | nil => exact fun _ pr => rfl
  | cons x rest ih =>
    intro hk pr
    simp only [List.map_cons, List.mem_cons, not_or] at hk
    rw [List.foldl_cons, ih hk.2]
    show objGet (processProperty load norm g definitions tags pr.2 x.1 x.2).2.collectedData k = _
    exact processProperty_collected_other load norm g definitions tags pr.2 x.1 x.2 k
      (fun hh => hk.1 hh.symm)

theorem foldl_processStep_collected_mem
    (load : String → Option JVal → Except String JObj)
    (norm : NormalizeOptions → JObj → Except String JVal)
    (g : GlobalCfg) (definitions : JVal) (tags : JObj) :
    ∀ (stats : List (String × StatProperty)) (k : String) (p : StatProperty),
      (k, p) ∈ stats → (stats.map Prod.fst).Nodup →
    ∀ pr : Except String Unit × PPState,
      objGet (stats.foldl (processStep load norm g definitions tags) pr).2.collectedData k =
        (match processPropertyResult load norm g definitions tags k p with
         | .ok (some v) => some v
         | _ => objGet pr.2.collectedData k) := by
  intro stats
  induction stats with
  | nil => intro k p hmem; cases hmem
  | cons x rest ih =>
    intro k p hmem hnd pr
    have hnd2 : (x.1 :: rest.map Prod.fst).Nodup := by simpa using hnd
    have hnd' := List.nodup_cons.mp hnd2
    rcases List.mem_cons.mp hmem with hx | hx
    · subst hx
      have hrest : k ∉ rest.map Prod.fst := hnd'.1
      rw [List.foldl_cons,
        foldl_processStep_collected_not_mem load norm g definitions tags k rest hrest]
      show objGet (processProperty load norm g definitions tags pr.2 k p).2.collectedData k = _
      unfold processProperty
      cases processPropertyResult load norm g definitions tags k p with
      | error e => rfl
      | ok u =>
        cases u with
        | none => rfl
        | some v => exact objGet_objSet_self pr.2.collectedData k v
    · have hk : k ∈ rest.map Prod.fst := List.mem_map.mpr ⟨(k, p), hx, rfl⟩
      have hx1 : x.1 ≠ k := fun hh => hnd'.1 (hh ▸ hk)
      rw [List.foldl_cons, ih k p hx hnd'.2]
      cases processPropertyResult load norm g definitions tags k p with
      | error e =>
        show objGet (processProperty load norm g definitions tags pr.2 x.1 x.2).2.collectedData k = _
        exact processProperty_collected_other load norm g definitions tags pr.2 x.1 x.2 k hx1
      | ok u =>
        cases u with
        | none =>
          show objGet (processProperty load norm g definitions tags pr.2 x.1 x.2).2.collectedData k = _
          exact processProperty_collected_other load norm g definitions tags pr.2 x.1 x.2 k hx1
        | some v => rfl

/-- Whether the declared stats document relocates key `k` in `collect`'s
reshape: `stats[k]` exists, declares a `structure`, and that structure is
not a folder. -/
def isRelocated (stats : List (String × StatProperty)) (k : String) : Bool :=
  match structOf stats k with
  | some s => !s.folder
  | none => false

/-- The declared parent of a relocated key, when any. -/
def relocParent (stats : List (String × StatProperty)) (k : String) :
    Option String :=
  match structOf stats k with
  | some s => if s.folder then none else s.parentKey
  | none => none

theorem asObj_eq_some (x : Option JVal) (po : List (String × JVal))
    (h : asObj x = some po) : x = some (JVal.obj po) := by
  cases x with
  | none => cases h
  | some v =>
    cases v with
    | obj fields =>
      injection h with h
      rw [h]
    | undef => cases h
    | bool b => cases h
    | num n => cases h
    | str s => cases h
    | arr l => cases h

theorem relocParent_isRelocated (stats : List (String × StatProperty))
    (k : String) (pk : String) (h : relocParent stats k = some pk) :
    isRelocated stats k = true := by
  unfold relocParent at h
  unfold isRelocated
  cases hs : structOf stats k with
  | none =>
    simp only [hs] at h
    cases h
  | some s =>
    simp only [hs] at h ⊢
    by_cases hf : s.folder
    · simp [hf] at h
    · simp [hf]

theorem relocateOne_not_relocated (stats : List (String × StatProperty))
    (d : JObj) (k : String) (h : isRelocated stats k = false) :
    relocateOne stats d k = .ok d := by
  unfold isRelocated at h
  unfold relocateOne
  cases hs : structOf stats k with
  | none => simp [hs]
  | some s =>
    simp only [hs] at h
    have hf : s.folder = true := by
      cases hh : s.folder
      · simp [hh] at h
      · rfl
    simp [hs, hf]

theorem relocateOne_ok_cases (stats : List (String × StatProperty))
    (d : JObj) (k : String) (d' : JObj)
    (h : relocateOne stats d k = .ok d') :
    d' = d ∨
    ∃ pk po, relocParent stats k = some pk ∧
      objGet d pk = some (JVal.obj po) ∧
      isRelocated stats k = true ∧
      d' = objDel (objSet d pk (JVal.obj (objSet po k (objGetD d k)))) k := by
  unfold relocateOne at h
  cases hs : structOf stats k with
  | none =>
    simp only [hs] at h
    injection h with h
    exact Or.inl h.symm
  | some s =>
    simp only [hs] at h
    by_cases hf : s.folder
    · rw [if_pos hf] at h
      injection h with h
      exact Or.inl h.symm
    · rw [if_neg hf] at h
      cases hpk : s.parentKey with
      | none =>
        simp only [hpk] at h
        cases h
      | some pk =>
        simp only [hpk] at h
        cases hpo : asObj (objGet d pk) with
        | none =>
          simp only [hpo] at h
          cases h
        | some po =>
          simp only [hpo] at h
          have hdpk : objGet d pk = some (JVal.obj po) := asObj_eq_some _ po hpo
          injection h with h
          refine Or.inr ⟨pk, po, ?_, hdpk, ?_, h.symm⟩
          · unfold relocParent
            simp [hs, hf, hpk]
          · unfold isRelocated
            simp [hs, hf]

theorem foldlM_relocateOne_preserves (stats : List (String × StatProperty))
    (k : String) (hrel : isRelocated stats k = false)
    (hnp : ∀ c, relocParent stats c ≠ some k) :
    ∀ (ks : List String) (d out : JObj),
      ks.foldlM (relocateOne stats) d = .ok out →
      objGet out k = objGet d k := by
  intro ks
  induction ks with
  | nil =>
    intro d out h
    injection h with h
    rw [h]
  | cons k1 ks ih =>
    intro d out h
    rw [List.foldlM_cons] at h
    cases hro : relocateOne stats d k1 with
    | error e => rw [hro] at h; cases h
    | ok d' =>
      rw [hro] at h
      have hrest : objGet out k = objGet d' k := ih d' out h
      rcases relocateOne_ok_cases stats d k1 d' hro with hd | ⟨pk, po, hrp, hdpk, hr1, hd⟩
      · rw [hrest, hd]
      · have hk1 : k1 ≠ k := by
          intro hh
          rw [hh] at hr1
          rw [hr1] at hrel
          cases hrel
        have hpk : pk ≠ k := by
          intro hh
          exact hnp k1 (hh ▸ hrp)
        rw [hrest, hd,
          objGet_objDel_ne _ k1 k (fun hh => hk1 hh.symm),
          objGet_objSet_ne _ pk k _ hpk]

theorem orderData_loop_get_not_mem (collected : JObj) :
    ∀ (l : List (String × StatProperty)) (acc : JObj) (k : String),
      k ∉ l.map Prod.fst →
      objGet (l.foldl (fun d kp => objSet d kp.1 (objGetD collected kp.1)) acc) k =
        objGet acc k := by
  intro l
  induction l with
  | nil => exact fun acc k _ => rfl
  | cons x rest ih =>
    intro acc k hk
    simp only [List.map_cons, List.mem_cons, not_or] at hk
    rw [List.foldl_cons, ih _ k hk.2]
    exact objGet_objSet_ne acc x.1 k _ (fun hh => hk.1 hh.symm)

theorem orderData_loop_get_mem (collected : JObj) :
    ∀ (l : List (String × StatProperty)) (acc : JObj) (k : String),
      k ∈ l.map Prod.fst → (l.map Prod.fst).Nodup →
      objGet (l.foldl (fun d kp => objSet d kp.1 (objGetD collected kp.1)) acc) k =
        some (objGetD collected k) := by
  intro l
  induction l with
  | nil => intro acc k hk _; simp at hk
  | cons x rest ih =>
    intro acc k hk hnd
    have hnd2 : (x.1 :: rest.map Prod.fst).Nodup := by simpa using hnd
    have hnd' := List.nodup_cons.mp hnd2
    rw [List.map_cons] at hk
    rcases List.mem_cons.mp hk with hx | hx
    · subst hx
      rw [List.foldl_cons, orderData_loop_get_not_mem collected rest _ x.1 hnd'.1]
      exact objGet_objSet_self acc x.1 _
    · rw [List.foldl_cons]
      exact ih _ k hx hnd'.2

theorem orderData_get (stats : List (String × StatProperty)) (collected : JObj)
    (k : String) (hk : k ∈ stats.map Prod.fst)
    (hnd : (stats.map Prod.fst).Nodup) :
    objGet (orderData stats collected) k = some (objGetD collected k) := by
  unfold orderData
  exact orderData_loop_get_mem collected stats [] k hk hnd

theorem collect_eq_of_cpd_ok (load : String → Option JVal → Except String JObj)
    (norm : NormalizeOptions → JObj → Except String JVal)
    (g : GlobalCfg) (definitions : JVal) (tags : JObj)
    (stats : List (String × StatProperty)) (u : Unit)
    (h : (computePropertiesData load norm g definitions tags stats {}).1 = .ok u) :
    collect load norm g definitions tags stats =
      (match reshape stats
        (computePropertiesData load norm g definitions tags stats {}).2.collectedData with
       | .error e =>
         (.error e,
          (computePropertiesData load norm g definitions tags stats {}).2.log ++
            ["Error: SystemStats.collect: " ++ e])
       | .ok data =>
         (.ok data,
          (computePropertiesData load norm g definitions tags stats {}).2.log)) := by
  unfold collect
  simp only [h]

theorem collect_ok_inversion (load : String → Option JVal → Except String JObj)
    (norm : NormalizeOptions → JObj → Except String JVal)
    (g : GlobalCfg) (definitions : JVal) (tags : JObj)
    (stats : List (String × StatProperty)) (out : JObj)
    (h : (collect load norm g definitions tags stats).1 = .ok out) :
    reshape stats
      (computePropertiesData load norm g definitions tags stats {}).2.collectedData =
      .ok out := by
  cases hc : (computePropertiesData load norm g definitions tags stats
      ({} : PPState)).1 with
  | error e =>
    rw [collect_eq_of_cpd_error load norm g definitions tags stats e hc] at h
    cases h
  | ok u =>
    rw [collect_eq_of_cpd_ok load norm g definitions tags stats u hc] at h
    cases hr : reshape stats
        (computePropertiesData load norm g definitions tags stats {}).2.collectedData with
    | error e =>
      rw [hr] at h
      cases h
    | ok data =>
      rw [hr] at h
      injection h with h
      rw [h]

/-- **C9** (amended): a disabled property contributes no collected data, but
its name is still present in the final tree — `data[key] =
this.collectedData[key]` assigns JS `undefined`, which creates the key — so
the tree maps the name to `undefined` (an entry that disappears only on JSON
serialization) rather than containing no entry; a pure-folder property
(`structure.folder === true`, not itself a relocation parent of any child)
yields an empty object under its name. -/
theorem collect_disabled_and_folder_entries
    (load : String → Option JVal → Except String JObj)
    (norm : NormalizeOptions → JObj → Except String JVal)
    (g : GlobalCfg) (definitions : JVal) (tags : JObj)
    (stats : List (String × StatProperty)) (out : JObj)
    (hnd : (stats.map Prod.fst).Nodup)
    (hout : (collect load norm g definitions tags stats).1 = .ok out)
    (k : String) (p : StatProperty)
    (hkmem : (k, p) ∈ stats) (hdis : p.disabled = true)
    (hkstruct : p.struct = none)
    (hknp : ∀ c, relocParent stats c ≠ some k)
    (k2 : String) (p2 : StatProperty) (s2 : StructureHint)
    (h2mem : (k2, p2) ∈ stats) (h2dis : p2.disabled = false)
    (h2struct : p2.struct = some s2) (h2folder : s2.folder = true)
    (h2np : ∀ c, relocParent stats c ≠ some k2) :
    objGet (computePropertiesData load norm g definitions tags
      stats {}).2.collectedData k = none ∧
    objGet out k = some JVal.undef ∧
    objGet out k2 = some (JVal.obj []) := by
  have hresh := collect_ok_inversion load norm g definitions tags stats out hout
  have hppr : processPropertyResult load norm g definitions tags k p = .ok none := by
    unfold processPropertyResult
    simp [hdis]
  have hCk : objGet (computePropertiesData load norm g definitions tags
      stats {}).2.collectedData k = none := by
    unfold computePropertiesData
    rw [foldl_processStep_collected_mem load norm g definitions tags stats k p
      hkmem hnd (.ok (), {}), hppr]
    rfl
  have hkmemf : k ∈ stats.map Prod.fst := List.mem_map.mpr ⟨(k, p), hkmem, rfl⟩
  have hOrdk : objGet (orderData stats
      (computePropertiesData load norm g definitions tags
        stats {}).2.collectedData) k = some JVal.undef := by
    rw [orderData_get stats _ k hkmemf hnd]
    unfold objGetD
    rw [hCk]
    rfl
  have hgs : getStat stats k = some p := lookupA_of_mem_nodup stats k p hkmem hnd
  have hrelk : isRelocated stats k = false := by
    simp [isRelocated, structOf, hgs, hkstruct]
  have hppr2 : processPropertyResult load norm g definitions tags k2 p2 =
      .ok (some (JVal.obj [])) := by
    unfold processPropertyResult
    simp [h2dis, h2struct, h2folder]
  have hCk2 : objGet (computePropertiesData load norm g definitions tags
      stats {}).2.collectedData k2 = some (JVal.obj []) := by
    unfold computePropertiesData
    rw [foldl_processStep_collected_mem load norm g definitions tags stats k2 p2
      h2mem hnd (.ok (), {}), hppr2]
  have h2memf : k2 ∈ stats.map Prod.fst := List.mem_map.mpr ⟨(k2, p2), h2mem, rfl⟩
  have hOrdk2 : objGet (orderData stats
      (computePropertiesData load norm g definitions tags
        stats {}).2.collectedData) k2 = some (JVal.obj []) := by
    rw [orderData_get stats _ k2 h2memf hnd]
    unfold objGetD
    rw [hCk2]
    rfl
  have hgs2 : getStat stats k2 = some p2 := lookupA_of_mem_nodup stats k2 p2 h2mem hnd
  have hrelk2 : isRelocated stats k2 = false := by
    simp [isRelocated, structOf, hgs2, h2struct, h2folder]
  unfold reshape processStructure at hresh
  have hpk := foldlM_relocateOne_preserves stats k hrelk hknp _ _ out hresh
  have hpk2 := foldlM_relocateOne_preserves stats k2 hrelk2 h2np _ _ out hresh
  exact ⟨hCk, by rw [hpk, hOrdk], by rw [hpk2, hOrdk2]⟩

/-- A loader that returns an empty payload, for concrete instances. -/
def loadEmpty : String → Option JVal → Except String JObj :=
  fun _ _ => .ok []

/-- The concrete stats document used by the C9 witness: a pure folder and a
disabled property. -/
def statsC9 : List (String × StatProperty) :=
  [("system", { key := "sys", struct := some { folder := true } }),
   ("cpu", { key := "sys/cpu", disabled := true })]

/-- **C9** witness: on a document with a folder property `system` and a
disabled property `cpu`, `collect` succeeds, collects nothing for `cpu`, and
returns a tree mapping `cpu` to `undefined` and `system` to `{}`. -/
theorem collect_disabled_and_folder_entries_witness :
    objGet (computePropertiesData loadEmpty normThrough gSample defsSample []
      statsC9 {}).2.collectedData "cpu" = none ∧
    objGet [("system", JVal.obj []), ("cpu", JVal.undef)] "cpu" =
      some JVal.undef ∧
    objGet [("system", JVal.obj []), ("cpu", JVal.undef)] "system" =
      some (JVal.obj []) :=
  collect_disabled_and_folder_entries loadEmpty normThrough gSample defsSample []
    statsC9 [("system", JVal.obj []), ("cpu", JVal.undef)]
    (by decide) rfl
    "cpu" { key := "sys/cpu", disabled := true }
    (List.mem_cons_of_mem _ (List.mem_cons_self _ _)) rfl rfl
    (by
      intro c h
      by_cases h1 : "system" = c
      · simp [relocParent, structOf, getStat, lookupA, statsC9, h1] at h
      · by_cases h2 : "cpu" = c
        · simp [relocParent, structOf, getStat, lookupA, statsC9, h1, h2] at h
        · simp [relocParent, structOf, getStat, lookupA, statsC9, h1, h2] at h)
    "system" { key := "sys", struct := some { folder := true } } { folder := true }
    (List.mem_cons_self _ _) rfl rfl rfl
    (by
      intro c h
      by_cases h1 : "system" = c
      · simp [relocParent, structOf, getStat, lookupA, statsC9, h1] at h
      · by_cases h2 : "cpu" = c
        · simp [relocParent, structOf, getStat, lookupA, statsC9, h1, h2] at h
        · simp [relocParent, structOf, getStat, lookupA, statsC9, h1, h2] at h)

/-- **C9** counterexample: the claim as stated — the final tree "contains no
entry under that property's name" when the property is disabled — fails: on
a document with the single disabled property `cpu`, `collect` resolves with
a tree whose key `cpu` is present (mapped to JS `undefined`). -/
theorem collect_disabled_key_present :
    (collect loadFail normThrough gSample defsSample []
      [("cpu", ({ key := "sys/cpu", disabled := true } : StatProperty))]).1 =
      .ok [("cpu", JVal.undef)] ∧
    objGet [("cpu", JVal.undef)] "cpu" ≠ none := by
  refine ⟨rfl, ?_⟩
  simp [objGet]

theorem relocateOne_relocated (stats : List (String × StatProperty))
    (d : JObj) (k pk : String) (po : List (String × JVal))
    (hrp : relocParent stats k = some pk)
    (hdpk : objGet d pk = some (JVal.obj po)) :
    relocateOne stats d k =
      .ok (objDel (objSet d pk (JVal.obj (objSet po k (objGetD d k)))) k) := by
  unfold relocParent at hrp
  unfold relocateOne
  cases hs : structOf stats k with
  | none =>
    simp only [hs] at hrp
    cases hrp
  | some s =>
    simp only [hs] at hrp
    by_cases hf : s.folder
    · rw [if_pos hf] at hrp
      cases hrp
    · rw [if_neg hf] at hrp
      simp only [hs, if_neg hf, hrp, hdpk]
      rfl

theorem objSet_map_fst_of_not_mem (o : JObj) (k : String) (v : JVal)
    (h : k ∉ o.map Prod.fst) :
    (objSet o k v).map Prod.fst = o.map Prod.fst ++ [k] := by
  induction o with
  | nil => rfl
  | cons p rest ih =>
    simp only [List.map_cons, List.mem_cons, not_or] at h
    have h1 : ¬ p.1 = k := fun hh => h.1 hh.symm
    simp only [objSet, if_neg h1, List.map_cons, ih h.2, List.cons_append]

theorem orderData_loop_map_fst (collected : JObj) :
    ∀ (l : List (String × StatProperty)) (acc : JObj),
      (∀ x ∈ l.map Prod.fst, x ∉ acc.map Prod.fst) →
      (l.map Prod.fst).Nodup →
      (l.foldl (fun d kp => objSet d kp.1 (objGetD collected kp.1)) acc).map Prod.fst =
        acc.map Prod.fst ++ l.map Prod.fst := by
  intro l
  induction l with
  | nil => intro acc _ _; simp
  | cons x rest ih =>
    intro acc hdisj hnd
    have hnd2 : (x.1 :: rest.map Prod.fst).Nodup := by simpa using hnd
    have hnd' := List.nodup_cons.mp hnd2
    have hx1 : x.1 ∉ acc.map Prod.fst :=
      hdisj x.1 (by simp)
    rw [List.foldl_cons, ih (objSet acc x.1 (objGetD collected x.1))
      (by
        intro y hy
        rw [objSet_map_fst_of_not_mem acc x.1 _ hx1]
        intro hmem
        rcases List.mem_append.mp hmem with hmem | hmem
        · exact hdisj y (by simp [hy]) hmem
        · rcases List.mem_singleton.mp hmem with rfl
          exact hnd'.1 hy)
      hnd'.2]
    rw [objSet_map_fst_of_not_mem acc x.1 _ hx1]
    simp

theorem orderData_map_fst (stats : List (String × StatProperty))
    (collected : JObj) (hnd : (stats.map Prod.fst).Nodup) :
    (orderData stats collected).map Prod.fst = stats.map Prod.fst := by
  unfold orderData
  rw [orderData_loop_map_fst collected stats [] (by intro x _ h; cases h) hnd]
  rfl

theorem processStructure_loop_invariant
    (stats : List (String × StatProperty)) (collected : JObj)
    (hnd : (stats.map Prod.fst).Nodup)
    (hpar : ∀ k, k ∈ stats.map Prod.fst → isRelocated stats k = true →
      ∃ pk, relocParent stats k = some pk ∧ pk ∈ stats.map Prod.fst ∧
        isRelocated stats pk = false ∧
        ∃ po, objGetD collected pk = JVal.obj po) :
    ∀ (rest : List String), ∀ (processed : List String) (d : JObj),
      stats.map Prod.fst = processed ++ rest →
      d.map Prod.fst = (stats.map Prod.fst).filter
        (fun x => !(isRelocated stats x && decide (x ∈ processed))) →
      (∀ pk, pk ∈ stats.map Prod.fst → isRelocated stats pk = false →
        (∃ po0, objGetD collected pk = JVal.obj po0) →
        ∃ po, objGet d pk = some (JVal.obj po) ∧
          ∀ c, c ∈ processed → relocParent stats c = some pk →
            objGet po c = some (objGetD collected c)) →
      (∀ x, x ∈ rest → isRelocated stats x = true →
        objGet d x = some (objGetD collected x)) →
      ∃ out, rest.foldlM (relocateOne stats) d = .ok out ∧
        out.map Prod.fst = (stats.map Prod.fst).filter
          (fun x => !(isRelocated stats x && decide (x ∈ processed ++ rest))) ∧
        (∀ pk, pk ∈ stats.map Prod.fst → isRelocated stats pk = false →
          (∃ po0, objGetD collected pk = JVal.obj po0) →
          ∃ po, objGet out pk = some (JVal.obj po) ∧
            ∀ c, c ∈ processed ++ rest → relocParent stats c = some pk →
              objGet po c = some (objGetD collected c)) := by
  intro rest
  induction rest with
  | nil =>
    intro processed d heq hInv1 hInv2 _
    refine ⟨d, rfl, ?_, ?_⟩
    · simpa using hInv1
    · intro pk hpk hrel hpo
      rcases hInv2 pk hpk hrel hpo with ⟨po, hget, hch⟩
      exact ⟨po, hget, fun c hc => hch c (by simpa using hc)⟩
  | cons k1 rest' ih =>
    intro processed d heq hInv1 hInv2 hInv3
    have hndpr : (processed ++ k1 :: rest').Nodup := heq ▸ hnd
    have hk1proc : k1 ∉ processed := by
      rcases List.nodup_append.mp hndpr with ⟨_, _, hdisj⟩
      intro hmem
      exact hdisj hmem (by simp)
    have hk1rest : k1 ∉ rest' := by
      rcases List.nodup_append.mp hndpr with ⟨_, hnr, _⟩
      exact (List.nodup_cons.mp hnr).1
    have hk1mem : k1 ∈ stats.map Prod.fst := by
      rw [heq]
      exact List.mem_append.mpr (Or.inr (by simp))
    cases hrel : isRelocated stats k1 with
    | false =>
      have hstep : relocateOne stats d k1 = .ok d :=
        relocateOne_not_relocated stats d k1 hrel
      have hcond : ∀ x ∈ stats.map Prod.fst,
          (!(isRelocated stats x && decide (x ∈ processed))) =
          (!(isRelocated stats x && decide (x ∈ processed ++ [k1]))) := by
        intro x _
        by_cases hx : x = k1
        · subst hx
          rw [hrel]
          simp
        · have hmm : (x ∈ processed ++ [k1]) ↔ (x ∈ processed) := by simp [hx]
          rw [decide_eq_decide.mpr hmm]
      rcases ih (processed ++ [k1]) d
        (by rw [heq, List.append_cons])
        (by rw [hInv1]; exact List.filter_congr hcond)
        (by
          intro pk hpk hrelpk hpo
          rcases hInv2 pk hpk hrelpk hpo with ⟨po, hget, hch⟩
          refine ⟨po, hget, ?_⟩
          intro c hc hrc
          rcases List.mem_append.mp hc with hc | hc
          · exact hch c hc hrc
          · rcases List.mem_singleton.mp hc with rfl
            rw [relocParent_isRelocated stats c pk hrc] at hrel
            cases hrel)
        (fun x hx hrx => hInv3 x (List.mem_cons_of_mem k1 hx) hrx)
        with ⟨out, hfold, hkeys, hinv2⟩
      refine ⟨out, ?_, ?_, ?_⟩
      · rw [List.foldlM_cons, hstep]
        exact hfold
      · rw [List.append_cons processed k1 rest']
        exact hkeys
      · rw [List.append_cons processed k1 rest']
        exact hinv2
    | true =>
      rcases hpar k1 hk1mem hrel with ⟨pk, hrp, hpkmem, hpkrel, po0, hpo0⟩
      rcases hInv2 pk hpkmem hpkrel ⟨po0, hpo0⟩ with ⟨po, hdpk, hch⟩
      have hdk1 : objGet d k1 = some (objGetD collected k1) :=
        hInv3 k1 (by simp) hrel
      have hgd : objGetD d k1 = objGetD collected k1 := by
        unfold objGetD
        rw [hdk1]
        rfl
      have hstep := relocateOne_relocated stats d k1 pk po hrp hdpk
      rw [hgd] at hstep
      have hk1pk : k1 ≠ pk := by
        intro hh
        rw [hh, hpkrel] at hrel
        cases hrel
      have hpkd : pk ∈ d.map Prod.fst := mem_of_objGet_some d pk _ hdpk
      have hInv1' : (objDel (objSet d pk
            (JVal.obj (objSet po k1 (objGetD collected k1)))) k1).map Prod.fst =
          (stats.map Prod.fst).filter
            (fun x => !(isRelocated stats x && decide (x ∈ processed ++ [k1]))) := by
        rw [objDel_map_fst, objSet_map_fst_of_mem d pk _ hpkd, hInv1,
          List.filter_filter]
        refine List.filter_congr ?_
        intro x _
        by_cases hx : x = k1
        · subst hx
          simp [hrel]
        · have hd1 : decide (x ∈ processed ++ [k1]) = decide (x ∈ processed) :=
            decide_eq_decide.mpr (by simp [hx])
          rw [hd1]
          simp [hx]
      have hInv2' : ∀ pk', pk' ∈ stats.map Prod.fst →
          isRelocated stats pk' = false →
          (∃ po0', objGetD collected pk' = JVal.obj po0') →
          ∃ po', objGet (objDel (objSet d pk
              (JVal.obj (objSet po k1 (objGetD collected k1)))) k1) pk' =
            some (JVal.obj po') ∧
            ∀ c, c ∈ processed ++ [k1] → relocParent stats c = some pk' →
              objGet po' c = some (objGetD collected c) := by
        intro pk' hpk'mem hpk'rel hpo'
        have hpk'k1 : pk' ≠ k1 := by
          intro hh
          rw [hh, hrel] at hpk'rel
          cases hpk'rel
        by_cases hpp : pk' = pk
        · subst hpp
          refine ⟨objSet po k1 (objGetD collected k1), ?_, ?_⟩
          · rw [objGet_objDel_ne _ k1 pk' hpk'k1, objGet_objSet_self]
          · intro c hc hrc
            rcases List.mem_append.mp hc with hc | hc
            · have hck1 : c ≠ k1 := fun hh => hk1proc (hh ▸ hc)
              rw [objGet_objSet_ne po k1 c _ (fun hh => hck1 hh.symm)]
              exact hch c hc hrc
            · rcases List.mem_singleton.mp hc with rfl
              rw [objGet_objSet_self]
        · rcases hInv2 pk' hpk'mem hpk'rel hpo' with ⟨po', hget', hch'⟩
          refine ⟨po', ?_, ?_⟩
          · rw [objGet_objDel_ne _ k1 pk' hpk'k1,
              objGet_objSet_ne d pk pk' _ (fun hh => hpp hh.symm)]
            exact hget'
          · intro c hc hrc
            rcases List.mem_append.mp hc with hc | hc
            · exact hch' c hc hrc
            · rcases List.mem_singleton.mp hc with rfl
              rw [hrp] at hrc
              injection hrc with hrc
              exact absurd hrc.symm hpp
      have hInv3' : ∀ x, x ∈ rest' → isRelocated stats x = true →
          objGet (objDel (objSet d pk
            (JVal.obj (objSet po k1 (objGetD collected k1)))) k1) x =
            some (objGetD collected x) := by
        intro x hx hrx
        have hxk1 : x ≠ k1 := fun hh => hk1rest (hh ▸ hx)
        have hxpk : x ≠ pk := by
          intro hh
          rw [hh, hpkrel] at hrx
          cases hrx
        rw [objGet_objDel_ne _ k1 x hxk1,
          objGet_objSet_ne d pk x _ (fun hh => hxpk hh.symm)]
        exact hInv3 x (List.mem_cons_of_mem k1 hx) hrx
      rcases ih (processed ++ [k1])
        (objDel (objSet d pk (JVal.obj (objSet po k1 (objGetD collected k1)))) k1)
        (by rw [heq, List.append_cons])
        hInv1' hInv2' hInv3' with ⟨out, hfold, hkeys, hinv2⟩
      refine ⟨out, ?_, ?_, ?_⟩
      · rw [List.foldlM_cons, hstep]
        exact hfold
      · rw [List.append_cons processed k1 rest']
        exact hkeys
      · rw [List.append_cons processed k1 rest']
        exact hinv2

/-- **C5**: when `collect` resolves, the output tree's top-level keys are the
declared stats keys, in declared order, minus the relocated ones; and every
property whose structure declares a (non-folder) parent appears only nested
at `output[parentKey][key]`, never at top level.  Hypotheses: declared keys
are distinct, and every relocated key's declared parent is a declared,
non-relocated key whose collected value is an object (as a folder's `{}`
is). -/
theorem collect_output_order_and_nesting
    (load : String → Option JVal → Except String JObj)
    (norm : NormalizeOptions → JObj → Except String JVal)
    (g : GlobalCfg) (definitions : JVal) (tags : JObj)
    (stats : List (String × StatProperty)) (out : JObj)
    (hnd : (stats.map Prod.fst).Nodup)
    (hpar : ∀ k, k ∈ stats.map Prod.fst → isRelocated stats k = true →
      ∃ pk, relocParent stats k = some pk ∧ pk ∈ stats.map Prod.fst ∧
        isRelocated stats pk = false ∧
        ∃ po, objGetD (computePropertiesData load norm g definitions tags
          stats {}).2.collectedData pk = JVal.obj po)
    (hout : (collect load norm g definitions tags stats).1 = .ok out) :
    out.map Prod.fst =
      (stats.map Prod.fst).filter (fun x => !(isRelocated stats x)) ∧
    ∀ k pk, k ∈ stats.map Prod.fst → relocParent stats k = some pk →
      objGet out k = none ∧
      ∃ po, objGet out pk = some (JVal.obj po) ∧
        objGet po k = some (objGetD (computePropertiesData load norm g
          definitions tags stats {}).2.collectedData k) := by
  have hresh := collect_ok_inversion load norm g definitions tags stats out hout
  unfold reshape processStructure at hresh
  have hd0keys : (orderData stats (computePropertiesData load norm g definitions
      tags stats {}).2.collectedData).map Prod.fst = stats.map Prod.fst :=
    orderData_map_fst stats _ hnd
  have hInv1 : (orderData stats (computePropertiesData load norm g definitions
      tags stats {}).2.collectedData).map Prod.fst =
      (stats.map Prod.fst).filter
        (fun x => !(isRelocated stats x && decide (x ∈ ([] : List String)))) := by
    have hfil : (stats.map Prod.fst).filter
        (fun x => !(isRelocated stats x && decide (x ∈ ([] : List String)))) =
        stats.map Prod.fst :=
      Eq.trans (List.filter_congr (fun x _ => by simp)) (List.filter_true _)
    rw [hfil, hd0keys]
  have hInv2 : ∀ pk, pk ∈ stats.map Prod.fst → isRelocated stats pk = false →
      (∃ po0, objGetD (computePropertiesData load norm g definitions tags
        stats {}).2.collectedData pk = JVal.obj po0) →
      ∃ po, objGet (orderData stats (computePropertiesData load norm g
        definitions tags stats {}).2.collectedData) pk =
        some (JVal.obj po) ∧
        ∀ c, c ∈ ([] : List String) → relocParent stats c = some pk →
          objGet po c = some (objGetD (computePropertiesData load norm g
            definitions tags stats {}).2.collectedData c) := by
    intro pk hpk _ hpo
    rcases hpo with ⟨po0, hpo0⟩
    refine ⟨po0, ?_, ?_⟩
    · rw [orderData_get stats _ pk hpk hnd, hpo0]
    · intro c hc
      cases hc
  have hInv3 : ∀ x, x ∈ stats.map Prod.fst → isRelocated stats x = true →
      objGet (orderData stats (computePropertiesData load norm g definitions
        tags stats {}).2.collectedData) x =
        some (objGetD (computePropertiesData load norm g definitions tags
          stats {}).2.collectedData x) := by
    intro x hx _
    exact orderData_get stats _ x hx hnd
  rcases processStructure_loop_invariant stats
    (computePropertiesData load norm g definitions tags stats {}).2.collectedData
    hnd hpar (stats.map Prod.fst) []
    (orderData stats (computePropertiesData load norm g definitions tags
      stats {}).2.collectedData)
    rfl hInv1 hInv2 hInv3 with ⟨out', hfold, hkeys, hinv2⟩
  rw [hd0keys, hfold] at hresh
  injection hresh with hresh
  subst hresh
  have hkeys' : out'.map Prod.fst =
      (stats.map Prod.fst).filter (fun x => !(isRelocated stats x)) := by
    refine Eq.trans hkeys (List.filter_congr ?_)
    intro x hx
    have hdx : decide (x ∈ ([] : List String) ++ stats.map Prod.fst) = true := by
      simp [hx]
    rw [hdx, Bool.and_true]
  refine ⟨hkeys', ?_⟩
  intro k pk hk hrp
  have hkrel := relocParent_isRelocated stats k pk hrp
  constructor
  · apply objGet_eq_none_of_not_mem
    rw [hkeys']
    intro hmem
    have hflt := List.of_mem_filter hmem
    rw [hkrel] at hflt
    cases hflt
  · rcases hpar k hk hkrel with ⟨pk', hrp', hpk'mem, hpk'rel, hpo⟩
    have hpp : pk' = pk := by
      rw [hrp] at hrp'
      injection hrp' with hh
      exact hh.symm
    subst hpp
    rcases hinv2 pk' hpk'mem hpk'rel hpo with ⟨po, hget, hch⟩
    exact ⟨po, hget, hch k (by simp [hk]) hrp⟩

/-- The concrete stats document used by the C5 witness: a folder parent
`system`, a structural child `diskStorage` declaring it, and a plain
property `cpu`. -/
def statsC5 : List (String × StatProperty) :=
  [("system", { key := "sys", struct := some { folder := true } }),
   ("diskStorage", { key := "sys/disk", struct := some { parentKey := some "system" } }),
   ("cpu", { key := "sys/cpu" })]

/-- **C5** witness: on the concrete document, the resolved tree lists
`system` and `cpu` (in declared order, `diskStorage` removed from top
level), and the child's data sits nested at `output.system.diskStorage`. -/
theorem collect_output_order_and_nesting_witness :
    ([("system", JVal.obj [("diskStorage", JVal.obj [("items", JVal.arr [])])]),
      ("cpu", JVal.obj [("items", JVal.arr [])])] : JObj).map Prod.fst =
      (statsC5.map Prod.fst).filter (fun x => !(isRelocated statsC5 x)) ∧
    objGet [("system", JVal.obj [("diskStorage", JVal.obj [("items", JVal.arr [])])]),
      ("cpu", JVal.obj [("items", JVal.arr [])])] "diskStorage" = none ∧
    ∃ po, objGet [("system", JVal.obj [("diskStorage", JVal.obj [("items", JVal.arr [])])]),
        ("cpu", JVal.obj [("items", JVal.arr [])])] "system" = some (JVal.obj po) ∧
      objGet po "diskStorage" = some (objGetD (computePropertiesData loadEmpty
        normThrough gSample defsSample [] statsC5 {}).2.collectedData
        "diskStorage") := by
  have h := collect_output_order_and_nesting loadEmpty normThrough gSample
    defsSample [] statsC5
    [("system", JVal.obj [("diskStorage", JVal.obj [("items", JVal.arr [])])]),
     ("cpu", JVal.obj [("items", JVal.arr [])])]
    (by decide)
    (by
      intro k hk hrel
      have hk3 : k = "system" ∨ k = "diskStorage" ∨ k = "cpu" := by
        simpa [statsC5] using hk
      rcases hk3 with rfl | rfl | rfl
      · exact absurd hrel (by decide)
      · exact ⟨"system", rfl, by decide, rfl, ⟨[], rfl⟩⟩
      · exact absurd hrel (by decide))
    rfl
  rcases h.2 "diskStorage" "system" (by decide) rfl with ⟨h1, h2⟩
  exact ⟨h.1, h1, h2⟩
